import Mathlib

/-!
Verification of the multi-agent session registry and message-routing subsystem
of the metamove backend. The development shallowly embeds two revisions of the
subsystem found in the repository:

* the in-memory registry (`AgentService` holding the `agents` map and the
  `userAgents` owner-index, backed by the `AptosService` singleton that binds
  blockchain and conversational runtimes), and
* the persistence-backed revision (`ConversationService` over the Mongo
  `Conversation` collection, the Mongo-backed `AgentService` over the `Agent`
  collection, and the controller handlers that compose them).

JavaScript `Map` objects are embedded as insertion-ordered association lists;
Mongo collections as plain lists of documents. The opaque runtime handles
produced by the external collaborators (`AgentRuntime`, `createReactAgent`)
are embedded as natural-number handles drawn from a counter, so that object
identity is equality of handles and every construction call is observable as
a counter increment. `uuidv4` / `crypto.randomUUID` are embedded as an
injective supply of fresh strings drawn from a counter. The outcome of each
external call (key parsing, LLM construction, LLM invocation) is passed in
as an explicit argument, since the embedding cannot perform the network call.
-/

/-- Lookup in a JS-Map-style association list: first entry with the key. -/
def mget? {κ α : Type} [DecidableEq κ] : List (κ × α) → κ → Option α
  | [], _ => none
  | e :: rest, k => if e.1 = k then some e.2 else mget? rest k

/-- `Map.prototype.set`: replace the value at the key in place, else append. -/
def mset {κ α : Type} [DecidableEq κ] : List (κ × α) → κ → α → List (κ × α)
  | [], k, v => [(k, v)]
  | e :: rest, k, v => if e.1 = k then (k, v) :: rest else e :: mset rest k v

/-- `Map.prototype.delete`: drop the entry with the key. -/
def mdel {κ α : Type} [DecidableEq κ] (m : List (κ × α)) (k : κ) : List (κ × α) :=
  m.filter (fun e => e.1 != k)

/-- `Map.prototype.has`. -/
def mhas {κ α : Type} [DecidableEq κ] (m : List (κ × α)) (k : κ) : Bool :=
  (mget? m k).isSome

/-- A single stored chat message (`messageSchema`). Timestamps are epoch
milliseconds embedded as integers. -/
structure ChatMsg where
  role : String
  content : String
  timestamp : Int
deriving Repr, DecidableEq

/-- A `Conversation` document: the ordered message log of one
(userId, agentId) pair. -/
structure Conversation where
  userId : String
  agentId : String
  messages : List ChatMsg
  createdAt : Int
  updatedAt : Int
deriving Repr, DecidableEq

/-- An `Agent` document of the Mongo-backed agent service. -/
structure MongoAgent where
  userId : String
  agentId : String
  name : String
  createdAt : Int
  lastActive : Int
deriving Repr, DecidableEq

/-- The persistence-backed revision state: the `Conversation` collection
(keyed by Mongo `_id`, embedded as a counter-allocated natural) and the
`Agent` collection, plus the fresh-identifier supply for `crypto.randomUUID`. -/
structure DbState where
  conversations : List (Nat × Conversation)
  nextConvId : Nat
  agentsCol : List MongoAgent
  nextUuid : Nat
deriving Repr, DecidableEq

/-- `uuidv4` / `crypto.randomUUID`, embedded as an injective supply of opaque
fresh strings: the n-th draw is the string of n+1 copies of `u`. -/
def muuid (n : Nat) : String :=
  String.mk (List.replicate (n + 1) 'u')

/-- `Conversation.findOne({userId, agentId})`. -/
def findConversation (st : DbState) (userId agentId : String) : Option (Nat × Conversation) :=
  st.conversations.find? (fun e => e.2.userId == userId && e.2.agentId == agentId)

/-- `ConversationService.getOrCreateConversation`. -/
def getOrCreateConversation (st : DbState) (userId agentId : String) (now : Int) :
    (Nat × Conversation) × DbState :=
  match findConversation st userId agentId with
  | some e => (e, st)
  | none =>
    let conv : Conversation :=
      { userId := userId, agentId := agentId, messages := [], createdAt := now, updatedAt := now }
    ((st.nextConvId, conv),
     { st with conversations := st.conversations ++ [(st.nextConvId, conv)],
               nextConvId := st.nextConvId + 1 })

/-- `ConversationService.addMessageToConversation`: validates the role, then
pushes the message with a server-assigned timestamp and bumps `updatedAt`. -/
def addMessageToConversation (st : DbState) (conversationId : Nat) (role content : String)
    (now : Int) : Except String DbState :=
  if role = "user" ∨ role = "assistant" ∨ role = "system" then
    match mget? st.conversations conversationId with
    | none => .error "Conversation not found"
    | some conv =>
      let conv2 :=
        { conv with
            messages := conv.messages ++ [{ role := role, content := content, timestamp := now }],
            updatedAt := now }
      .ok { st with conversations := mset st.conversations conversationId conv2 }
  else .error "Invalid message role"

/-- `ConversationService.getConversationMessages`: returns the whole log, or
`messages.slice(-limit)` when the limit is truthy and the log is longer. -/
def getConversationMessages (st : DbState) (conversationId : Nat) (limit : Nat) :
    Except String (List ChatMsg) :=
  match mget? st.conversations conversationId with
  | none => .error "Conversation not found"
  | some conv =>
    let messages := conv.messages
    if limit ≠ 0 ∧ messages.length > limit then
      .ok (messages.drop (messages.length - limit))
    else .ok messages

/-- State-passing wrapper of the read, making it explicit that the method
performs no write on the store. -/
def getConversationMessagesS (st : DbState) (conversationId : Nat) (limit : Nat) :
    Except String (List ChatMsg) × DbState :=
  (getConversationMessages st conversationId limit, st)

/-- `ConversationService.deleteConversationsByAgentId`:
`deleteMany({userId, agentId})`, returning the deleted count. -/
def deleteConversationsByAgentId (st : DbState) (userId agentId : String) : Nat × DbState :=
  let hit := fun (e : Nat × Conversation) => e.2.userId == userId && e.2.agentId == agentId
  ((st.conversations.filter hit).length,
   { st with conversations := st.conversations.filter (fun e => !(hit e)) })

/-- `replaceFirst`: save of the one document returned by `findOne`. -/
def replaceFirst (l : List MongoAgent) (p : MongoAgent → Bool) (n : MongoAgent) :
    List MongoAgent :=
  match l with
  | [] => []
  | a :: rest => if p a then n :: rest else a :: replaceFirst rest p n

/-- `AgentService.createOrUpdateAgent` (Mongo revision): draws a fresh id when
`agentId` is falsy, updates the existing `(userId, agentId)` document if one
exists, otherwise inserts a new document. -/
def createOrUpdateAgent (st : DbState) (userId agentId name : String) (now : Int) :
    MongoAgent × DbState :=
  let finalAgentId := if agentId = "" then muuid st.nextUuid else agentId
  let st1 := if agentId = "" then { st with nextUuid := st.nextUuid + 1 } else st
  let hit := fun (a : MongoAgent) => a.userId == userId && a.agentId == finalAgentId
  match st1.agentsCol.find? hit with
  | some a =>
    let a2 := { a with name := if name = "" then a.name else name, lastActive := now }
    (a2, { st1 with agentsCol := replaceFirst st1.agentsCol hit a2 })
  | none =>
    let a2 : MongoAgent :=
      { userId := userId, agentId := finalAgentId,
        name := if name = "" then "My Agent" else name,
        createdAt := now, lastActive := now }
    (a2, { st1 with agentsCol := st1.agentsCol ++ [a2] })

/-- `AgentService.getAgent` (Mongo revision): `findOne({userId, agentId})`. -/
def getMongoAgent (st : DbState) (userId agentId : String) : Option MongoAgent :=
  st.agentsCol.find? (fun a => a.userId == userId && a.agentId == agentId)

/-- `AgentService.updateAgentActivity`: `findOneAndUpdate` of `lastActive`. -/
def updateAgentActivity (st : DbState) (userId agentId : String) (now : Int) :
    Option MongoAgent × DbState :=
  let hit := fun (a : MongoAgent) => a.userId == userId && a.agentId == agentId
  match st.agentsCol.find? hit with
  | none => (none, st)
  | some a =>
    let a2 := { a with lastActive := now }
    (some a2, { st with agentsCol := replaceFirst st.agentsCol hit a2 })

/-- `AgentService.removeInactiveAgents`: reports then deletes every agent
document with `lastActive` strictly before the cutoff date. -/
def removeInactiveAgents (st : DbState) (cutoffDate : Int) :
    (Nat × List MongoAgent) × DbState :=
  let inactiveAgents := st.agentsCol.filter (fun a => a.lastActive < cutoffDate)
  ((inactiveAgents.length, inactiveAgents),
   { st with agentsCol := st.agentsCol.filter (fun a => !(a.lastActive < cutoffDate : Bool)) })

/-- `sanitizeInput`, imported by the controller from the security middleware.
The middleware module declares the behaviour only for its request-wide
sanitizer: strings are stripped of the characters dangerous for injection,
`value.replace(/[<>]/g, '')`; the controller-local `validateInput` repeats the
same expression. The import itself resolves outside `src/`, so the function is
embedded with that behaviour. -/
def sanitizeInput (s : String) : String :=
  String.mk (s.data.filter (fun c => !(c == '<' || c == '>')))

/-- HTTP-level outcome of the initialize-agent endpoint. -/
structure InitAgentResponse where
  status : Nat
  success : Bool
  agentId : Option String
deriving Repr, DecidableEq

/-- Controller `initializeAgent`: validates, sanitizes, draws a fresh id when
the caller supplied none, and delegates to `createOrUpdateAgent`. -/
def initializeAgentHandler (st : DbState) (userId agentId name : String) (now : Int) :
    InitAgentResponse × DbState :=
  if userId = "" ∨ name = "" then ({ status := 400, success := false, agentId := none }, st)
  else
    let sanitizedUserId := sanitizeInput userId
    let sanitizedName := sanitizeInput name
    let sanitizedAgentId := if agentId = "" then muuid st.nextUuid else sanitizeInput agentId
    let st1 := if agentId = "" then { st with nextUuid := st.nextUuid + 1 } else st
    let res := createOrUpdateAgent st1 sanitizedUserId sanitizedAgentId sanitizedName now
    ({ status := 200, success := true, agentId := some res.1.agentId }, res.2)

/-- HTTP-level outcome of the process-message endpoint. -/
structure ProcessResponse where
  status : Nat
  success : Bool
  response : Option String
deriving Repr, DecidableEq

/-- Controller `processMessage`: looks the agent up (404 when absent), touches
its activity, gets-or-creates the conversation, appends the user message,
reads the 10 most recent messages as the model context, performs the chat
completion (outcome passed in as `chat`), and appends the reply. -/
def processMessageHandler (st : DbState) (userId agentId message : String)
    (chat : Except Unit String) (now : Int) : ProcessResponse × DbState :=
  if userId = "" ∨ agentId = "" ∨ message = "" then
    ({ status := 400, success := false, response := none }, st)
  else
    let sanitizedUserId := sanitizeInput userId
    let sanitizedAgentId := sanitizeInput agentId
    let sanitizedMessage := sanitizeInput message
    match getMongoAgent st sanitizedUserId sanitizedAgentId with
    | none => ({ status := 404, success := false, response := none }, st)
    | some _ =>
      let st1 := (updateAgentActivity st sanitizedUserId sanitizedAgentId now).2
      let got := getOrCreateConversation st1 sanitizedUserId sanitizedAgentId now
      match addMessageToConversation got.2 got.1.1 "user" sanitizedMessage now with
      | .error _ => ({ status := 500, success := false, response := none }, got.2)
      | .ok st3 =>
        let _messageHistory := getConversationMessages st3 got.1.1 10
        match chat with
        | .error _ => ({ status := 500, success := false, response := none }, st3)
        | .ok aiMessage =>
          match addMessageToConversation st3 got.1.1 "assistant" aiMessage now with
          | .error _ => ({ status := 500, success := false, response := none }, st3)
          | .ok st4 => ({ status := 200, success := true, response := some aiMessage }, st4)

/-- Concrete conversation used to exercise the tail projection. -/
def c1Conv : Conversation :=
  { userId := "userA", agentId := "agent1",
    messages := [{ role := "user", content := "m1", timestamp := 1 },
                 { role := "assistant", content := "m2", timestamp := 2 },
                 { role := "user", content := "m3", timestamp := 3 }],
    createdAt := 0, updatedAt := 3 }

/-- Concrete store holding `c1Conv` under id 5. -/
def c1State : DbState :=
  { conversations := [(5, c1Conv)], nextConvId := 6, agentsCol := [], nextUuid := 0 }

/-- Boundary agent: last active exactly at the cutoff. -/
def c8Boundary : MongoAgent :=
  { userId := "userA", agentId := "b1", name := "Boundary", createdAt := 0, lastActive := 76 }

/-- Stale agent: last active strictly before the cutoff. -/
def c8Old : MongoAgent :=
  { userId := "userA", agentId := "o1", name := "Old", createdAt := 0, lastActive := 75 }

/-- Concrete store for the janitor boundary scenario. -/
def c8State : DbState :=
  { conversations := [], nextConvId := 0, agentsCol := [c8Boundary, c8Old], nextUuid := 0 }

/-- A sequence of initialize-agent calls that omit the agentId field; returns
the list of agentId values handed back to the callers. -/
def runInitCalls (st : DbState) (reqs : List (String × String × Int)) :
    List (Option String) × DbState :=
  match reqs with
  | [] => ([], st)
  | r :: rest =>
    let h1 := initializeAgentHandler st r.1 "" r.2.1 r.2.2
    let h2 := runInitCalls h1.2 rest
    (h1.1.agentId :: h2.1, h2.2)

/-- Empty store used as the starting state for concrete agent scenarios. -/
def dbEmpty : DbState :=
  { conversations := [], nextConvId := 0, agentsCol := [], nextUuid := 0 }

/-- One stored Mongo agent used in the routing scenario. -/
def c4Agent : MongoAgent :=
  { userId := "userA", agentId := "ag1", name := "Tracker", createdAt := 0, lastActive := 0 }

/-- Store holding `c4Agent` and no conversations. -/
def c4State : DbState :=
  { conversations := [], nextConvId := 0, agentsCol := [c4Agent], nextUuid := 0 }

/-- A record of the in-memory registry: the value stored in the `agents` map
(`{ agent, privateKey, llmAgent, userId, name, initialized, createdAt }`).
The two runtime handles are embedded as counter-allocated naturals; `none`
embeds the null of an unbound runtime. -/
structure AgentData where
  agent : Option Nat
  privateKey : String
  llmAgent : Option Nat
  userId : String
  name : String
  initialized : Bool
  createdAt : Nat
deriving Repr, DecidableEq

/-- The in-memory registry state: the `agents` map and the `userAgents`
owner-index of the `AgentService`, plus the fields of the `aptosService`
singleton (`agent`, `llmAgent`) it delegates to, the fresh supplies for
handles and uuids, and two counters recording every construction call issued
to the external collaborators. -/
structure RegState where
  agents : List (String × AgentData)
  userAgents : List (String × List String)
  svcAgent : Option Nat
  svcLlm : Option Nat
  nextHandle : Nat
  nextUuid : Nat
  agentCtors : Nat
  llmCtors : Nat
deriving Repr, DecidableEq

/-- The state of a freshly constructed service pair. -/
def regInit : RegState :=
  { agents := [], userAgents := [], svcAgent := none, svcLlm := none,
    nextHandle := 0, nextUuid := 0, agentCtors := 0, llmCtors := 0 }

/-- `AptosService.initializeAgent`: parse the key and construct an
`AgentRuntime`, storing it on the singleton. `keyOk` is the outcome of the
external key parsing and construction; on failure nothing is assigned. -/
def aptosInitializeAgent (st : RegState) (privateKeyStr : String) (keyOk : Bool) :
    Except String RegState :=
  if keyOk then
    .ok { st with svcAgent := some st.nextHandle, nextHandle := st.nextHandle + 1,
                  agentCtors := st.agentCtors + 1 }
  else .error ("Failed to initialize agent: " ++ privateKeyStr)

/-- `AptosService.initializeLLMAgent`: requires the API key and a bound
singleton agent, then constructs the React agent and stores it on the
singleton. `apiKeyOk` embeds the presence of the environment credential and
`llmOk` the outcome of the upstream construction. -/
def aptosInitializeLLMAgent (st : RegState) (apiKeyOk llmOk : Bool) : Except String RegState :=
  if !apiKeyOk then .error "Missing ANTHROPIC_API_KEY environment variable"
  else if st.svcAgent = none then .error "Agent not initialized. Call initializeAgent first."
  else if llmOk then
    .ok { st with svcLlm := some st.nextHandle, nextHandle := st.nextHandle + 1,
                  llmCtors := st.llmCtors + 1 }
  else .error "Failed to initialize LLM agent"

/-- `AptosService.processAgentMessage`: lazily ensures the singleton LLM agent
and invokes it. `invokeRes` is the outcome of the external model invocation,
which mutates no registry state. -/
def aptosProcessAgentMessage (st : RegState) (messages : List ChatMsg)
    (apiKeyOk llmOk : Bool) (invokeRes : Except Unit (List ChatMsg)) :
    Except String (List ChatMsg) × RegState :=
  if st.svcLlm = none then
    match aptosInitializeLLMAgent st apiKeyOk llmOk with
    | .error e => (.error ("Failed to process agent message: " ++ e), st)
    | .ok st1 =>
      match invokeRes with
      | .error _ => (.error "Failed to process agent message", st1)
      | .ok msgs => (.ok msgs, st1)
  else
    match invokeRes with
    | .error _ => (.error "Failed to process agent message", st)
    | .ok msgs => (.ok msgs, st)

/-- Result of `AgentService.initializeUserAgent`. -/
structure AgentInitRes where
  agentId : String
  userId : String
  name : String
  initialized : Bool
  timestamp : Nat
deriving Repr, DecidableEq

/-- `AgentService.initializeUserAgent`: validates, draws a fresh uuid, binds
the blockchain runtime through the singleton, stores the new record in the
`agents` map and appends its id to the owner-index entry. -/
def initializeUserAgent (st : RegState) (userId privateKey name : String) (now : Nat)
    (keyOk : Bool) : Except String AgentInitRes × RegState :=
  if userId = "" then (.error "User ID is required", st)
  else if privateKey = "" then (.error "Private key is required", st)
  else
    let agentId := muuid st.nextUuid
    let st1 := { st with nextUuid := st.nextUuid + 1 }
    match aptosInitializeAgent st1 privateKey keyOk with
    | .error e => (.error e, st1)
    | .ok st2 =>
      let agentData : AgentData :=
        { agent := st2.svcAgent, privateKey := privateKey, llmAgent := none,
          userId := userId,
          name := if name = "" then "Agent-" ++ agentId.take 8 else name,
          initialized := true, createdAt := now }
      let ua1 := if mhas st2.userAgents userId then st2.userAgents
                 else mset st2.userAgents userId []
      let lst := (mget? ua1 userId).getD []
      (.ok { agentId := agentId, userId := userId, name := agentData.name,
             initialized := true, timestamp := now },
       { st2 with agents := mset st2.agents agentId agentData,
                  userAgents := mset ua1 userId (lst ++ [agentId]) })

/-- The ensure-bound step of `AgentService.processAgentMessage`: when the
record has no cached blockchain runtime, rebind it through the singleton and
write the handle onto the record. Errors carry the unchanged state. -/
def ensureAgentBound (st : RegState) (agentId : String) (agentData : AgentData)
    (keyOk : Bool) : Except (String × RegState) (AgentData × RegState) :=
  if agentData.agent = none then
    match aptosInitializeAgent st agentData.privateKey keyOk with
    | .error e => .error (e, st)
    | .ok st1 =>
      let ad1 := { agentData with agent := st1.svcAgent }
      .ok (ad1, { st1 with agents := mset st1.agents agentId ad1 })
  else .ok (agentData, st)

/-- `AgentService.processAgentMessage`: looks the record up, lazily binds its
blockchain and conversational runtimes (caching the handles on the record),
and delegates the invocation to the singleton. -/
def processAgentMessage (st : RegState) (agentId : String) (messages : List ChatMsg)
    (keyOk apiKeyOk llmOk : Bool) (invokeRes : Except Unit (List ChatMsg)) :
    Except String (List ChatMsg) × RegState :=
  if agentId = "" then (.error "Agent ID is required", st)
  else
    match mget? st.agents agentId with
    | none => (.error "Agent not found", st)
    | some agentData =>
      if agentData.llmAgent = none then
        match ensureAgentBound st agentId agentData keyOk with
        | .error es => (.error es.1, es.2)
        | .ok (ad1, st1) =>
          match aptosInitializeLLMAgent st1 apiKeyOk llmOk with
          | .error e => (.error e, st1)
          | .ok st2 =>
            let ad2 := { ad1 with llmAgent := st2.svcLlm }
            let st3 := { st2 with agents := mset st2.agents agentId ad2 }
            aptosProcessAgentMessage st3 messages apiKeyOk llmOk invokeRes
      else aptosProcessAgentMessage st messages apiKeyOk llmOk invokeRes

/-- Read projection returned by `AgentService.getAgent`. -/
structure AgentSummary where
  agentId : String
  userId : String
  name : String
  initialized : Bool
  llmInitialized : Bool
  createdAt : Nat
deriving Repr, DecidableEq

/-- `AgentService.getAgent`: summary of one record, or null. -/
def getAgent (st : RegState) (agentId : String) : Option AgentSummary :=
  if agentId = "" then none
  else
    match mget? st.agents agentId with
    | none => none
    | some ad =>
      some { agentId := agentId, userId := ad.userId, name := ad.name,
             initialized := ad.agent.isSome, llmInitialized := ad.llmAgent.isSome,
             createdAt := ad.createdAt }

/-- Status object returned by `AgentService.getAgentStatus`; absent fields of
the two shapes the source returns are embedded as `none`. -/
structure AgentStatus where
  agentId : Option String
  userId : Option String
  name : Option String
  initialized : Bool
  llmInitialized : Option Bool
  createdAt : Option Nat
  message : Option String
deriving Repr, DecidableEq

/-- `AgentService.getAgentStatus`: throws on a missing id, answers a plain
not-found status object for an unknown id, and a full status otherwise. -/
def getAgentStatus (st : RegState) (agentId : String) : Except String AgentStatus :=
  if agentId = "" then .error "Agent ID is required"
  else
    match mget? st.agents agentId with
    | none =>
      .ok { agentId := none, userId := none, name := none, initialized := false,
            llmInitialized := none, createdAt := none, message := some "Agent not found" }
    | some ad =>
      .ok { agentId := some agentId, userId := some ad.userId, name := some ad.name,
            initialized := true, llmInitialized := some ad.llmAgent.isSome,
            createdAt := some ad.createdAt, message := none }

/-- Per-owner summary returned by `AgentService.getUserAgents`. -/
structure UserAgentSummary where
  agentId : String
  name : String
  initialized : Bool
  llmInitialized : Bool
  createdAt : Nat
deriving Repr, DecidableEq

/-- `AgentService.getUserAgents`: the owner-index entry mapped through the
`agents` map, skipping ids whose record is missing. -/
def getUserAgents (st : RegState) (userId : String) : Except String (List UserAgentSummary) :=
  if userId = "" then .error "User ID is required"
  else
    match mget? st.userAgents userId with
    | none => .ok []
    | some agentIds =>
      .ok (agentIds.filterMap fun agentId =>
        match mget? st.agents agentId with
        | none => none
        | some ad =>
          some { agentId := agentId, name := ad.name, initialized := ad.agent.isSome,
                 llmInitialized := ad.llmAgent.isSome, createdAt := ad.createdAt })

/-- `AgentService.getAllAgents`: administrative summary of every record. -/
def getAllAgents (st : RegState) : List AgentSummary :=
  st.agents.map fun e =>
    { agentId := e.1, userId := e.2.userId, name := e.2.name,
      initialized := e.2.agent.isSome, llmInitialized := e.2.llmAgent.isSome,
      createdAt := e.2.createdAt }

/-- `AgentService.updateAgentName`: rename, then return the fresh summary. -/
def updateAgentName (st : RegState) (agentId name : String) :
    Except String AgentSummary × RegState :=
  if agentId = "" then (.error "Agent ID is required", st)
  else
    match mget? st.agents agentId with
    | none => (.error "Agent not found", st)
    | some agentData =>
      if name = "" then (.error "Name is required", st)
      else
        let st1 := { st with agents := mset st.agents agentId { agentData with name := name } }
        match getAgent st1 agentId with
        | some s => (.ok s, st1)
        | none => (.error "Agent not found", st1)

/-- `AgentService.removeAgent`: delete the record, filter its id out of the
owner-index entry, and drop the entry when it becomes empty. -/
def removeAgent (st : RegState) (agentId : String) : Except String Bool × RegState :=
  if agentId = "" then (.error "Agent ID is required", st)
  else
    match mget? st.agents agentId with
    | none => (.ok false, st)
    | some agentData =>
      let agents1 := mdel st.agents agentId
      let ua1 :=
        match mget? st.userAgents agentData.userId with
        | none => st.userAgents
        | some lst =>
          let updated := lst.filter (fun i => i != agentId)
          if updated.length = 0 then mdel st.userAgents agentData.userId
          else mset st.userAgents agentData.userId updated
      (.ok true, { st with agents := agents1, userAgents := ua1 })

/-- `AgentService.removeUserAgents`: delete every record listed in the owner
entry (counting the ones present), then delete the entry itself. -/
def removeUserAgents (st : RegState) (userId : String) : Except String Nat × RegState :=
  if userId = "" then (.error "User ID is required", st)
  else
    match mget? st.userAgents userId with
    | none => (.ok 0, st)
    | some agentIds =>
      let res := agentIds.foldl
        (fun (acc : List (String × AgentData) × Nat) agentId =>
          if mhas acc.1 agentId then (mdel acc.1 agentId, acc.2 + 1) else acc)
        (st.agents, 0)
      (.ok res.2, { st with agents := res.1, userAgents := mdel st.userAgents userId })

/-- Registry states reachable from a fresh service by any sequence of
operations, over all request parameters and all outcomes of the external
calls. -/
inductive RegReach : RegState → Prop where
  | init : RegReach regInit
  | create (st : RegState) (userId privateKey name : String) (now : Nat) (keyOk : Bool) :
      RegReach st → RegReach (initializeUserAgent st userId privateKey name now keyOk).2
  | process (st : RegState) (agentId : String) (messages : List ChatMsg)
      (keyOk apiKeyOk llmOk : Bool) (invokeRes : Except Unit (List ChatMsg)) :
      RegReach st →
      RegReach (processAgentMessage st agentId messages keyOk apiKeyOk llmOk invokeRes).2
  | rename (st : RegState) (agentId name : String) :
      RegReach st → RegReach (updateAgentName st agentId name).2
  | remove (st : RegState) (agentId : String) :
      RegReach st → RegReach (removeAgent st agentId).2
  | removeAll (st : RegState) (userId : String) :
      RegReach st → RegReach (removeUserAgents st userId).2

/-- Binding order on a record: a bound conversational runtime implies a bound
blockchain runtime. -/
def BindOrder (st : RegState) : Prop :=
  ∀ agentId ad, mget? st.agents agentId = some ad →
    ad.llmAgent.isSome = true → ad.agent.isSome = true

/-- Reachable registry state with one created agent. -/
def c6State1 : RegState :=
  (initializeUserAgent regInit "userA" "key1" "Tracker" 0 true).2

/-- Reachable registry state after one successful message turn, which bound
both runtimes of that agent. -/
def c6State2 : RegState :=
  (processAgentMessage c6State1 (muuid 0) [] true true true (.ok [])).2

/-- The stored record of that agent after the bind. -/
def c6ad : AgentData :=
  { agent := some 0, privateKey := "key1", llmAgent := some 1, userId := "userA",
    name := "Tracker", initialized := true, createdAt := 0 }

/-- Owner-index consistency: an id is listed under an owner iff its record
exists with that owner. -/
def IndexConsistent (st : RegState) : Prop :=
  ∀ userId agentId,
    (∃ l, mget? st.userAgents userId = some l ∧ agentId ∈ l) ↔
    (∃ ad, mget? st.agents agentId = some ad ∧ ad.userId = userId)

/-- No owner-index entry is left dangling empty. -/
def NoDangling (st : RegState) : Prop :=
  ∀ userId l, mget? st.userAgents userId = some l → l ≠ []

/-- Every stored agent id was drawn from the uuid supply already consumed. -/
def IdsFresh (st : RegState) : Prop :=
  ∀ agentId ad, mget? st.agents agentId = some ad → agentId.length ≤ st.nextUuid

/-- The combined registry invariant. -/
def RegInv (st : RegState) : Prop :=
  IndexConsistent st ∧ NoDangling st ∧ IdsFresh st

/-- Replace every stored record's secret material (`privateKey`) by an
arbitrary per-agent value. -/
def overwriteSecrets (st : RegState) (σ : String → String) : RegState :=
  { st with agents := st.agents.map fun e => (e.1, { e.2 with privateKey := σ e.1 }) }

/-- HTTP-level outcome of the get-agent-status endpoint. -/
structure StatusResponse where
  status : Nat
  success : Bool
  stat : Option AgentStatus
deriving Repr, DecidableEq

/-- Controller `getAgentStatus`: validates and sanitizes the id, then returns
the service status object wrapped in a 200 success envelope; service throws
map to 500. The handler performs no write. -/
def getAgentStatusHandler (st : RegState) (agentId : String) : StatusResponse × RegState :=
  if agentId = "" then ({ status := 400, success := false, stat := none }, st)
  else
    match getAgentStatus st (sanitizeInput agentId) with
    | .error _ => ({ status := 500, success := false, stat := none }, st)
    | .ok s => ({ status := 200, success := true, stat := some s }, st)

/-- Composite system state: the in-memory agent registry plus the persisted
conversation store, as wired together in the controller module. -/
structure SysState where
  reg : RegState
  db : DbState
deriving Repr, DecidableEq

/-- HTTP-level outcome of the remove-all-agents endpoint. -/
structure RemoveAllResponse where
  status : Nat
  success : Bool
  count : Option Nat
deriving Repr, DecidableEq

/-- Controller `removeUserAgents`: validates and sanitizes the user id and
calls the registry removal, returning the removed count. Unlike the
single-agent `removeAgent` endpoint, it issues no
`deleteConversationsByAgentId` call, so the conversation store is passed
through untouched. -/
def removeUserAgentsHandler (st : SysState) (userId : String) :
    RemoveAllResponse × SysState :=
  if userId = "" then ({ status := 400, success := false, count := none }, st)
  else
    match removeUserAgents st.reg (sanitizeInput userId) with
    | (.error _, reg1) =>
      ({ status := 500, success := false, count := none }, { st with reg := reg1 })
    | (.ok n, reg1) =>
      ({ status := 200, success := true, count := some n }, { st with reg := reg1 })

/-- Three concrete owned agent records. -/
def c3ad : AgentData :=
  { agent := none, privateKey := "k", llmAgent := none, userId := "userA",
    name := "A", initialized := true, createdAt := 0 }

/-- Registry in which userA owns three agents. -/
def c3Reg : RegState :=
  { agents := [("a1", c3ad), ("a2", c3ad), ("a3", c3ad)],
    userAgents := [("userA", ["a1", "a2", "a3"])],
    svcAgent := none, svcLlm := none, nextHandle := 0, nextUuid := 0,
    agentCtors := 0, llmCtors := 0 }

/-- A stored conversation of userA with agent a1. -/
def c3Conv : Conversation :=
  { userId := "userA", agentId := "a1",
    messages := [{ role := "user", content := "hello", timestamp := 1 }],
    createdAt := 0, updatedAt := 1 }

/-- Composite failing input: three owned agents, one conversation entry. -/
def c3Sys : SysState :=
  { reg := c3Reg,
    db := { conversations := [(0, c3Conv)], nextConvId := 1, agentsCol := [],
            nextUuid := 0 } }

theorem mget?_mset_self {κ α : Type} [DecidableEq κ] (m : List (κ × α)) (k : κ) (v : α) :
    mget? (mset m k v) k = some v := by
  induction m with
  | nil => simp [mset, mget?]
  | cons e rest ih =>
    by_cases h : e.1 = k
    · simp [mset, mget?, h]
    · simp [mset, mget?, h, ih]

theorem mget?_mset_ne {κ α : Type} [DecidableEq κ] (m : List (κ × α)) (k k2 : κ) (v : α)
    (h : k2 ≠ k) : mget? (mset m k v) k2 = mget? m k2 := by
  induction m with
  | nil => simp [mset, mget?, Ne.symm h]
  | cons e rest ih =>
    by_cases he : e.1 = k
    · simp [mset, mget?, he, Ne.symm h]
    · simp [mset, mget?, he, ih]

theorem mget?_mdel_self {κ α : Type} [DecidableEq κ] (m : List (κ × α)) (k : κ) :
    mget? (mdel m k) k = none := by
  induction m with
  | nil => simp [mdel, mget?]
  | cons e rest ih =>
    by_cases h : e.1 = k
    · simpa [mdel, List.filter_cons, h] using ih
    · simpa [mdel, List.filter_cons, h, mget?] using ih

theorem mget?_mdel_ne {κ α : Type} [DecidableEq κ] (m : List (κ × α)) (k k2 : κ)
    (h : k2 ≠ k) : mget? (mdel m k) k2 = mget? m k2 := by
  induction m with
  | nil => simp [mdel, mget?]
  | cons e rest ih =>
    by_cases he : e.1 = k
    · simpa [mdel, List.filter_cons, mget?, he, Ne.symm h] using ih
    · by_cases he2 : e.1 = k2
      · simp [mdel, List.filter_cons, mget?, he, he2, h]
      · simpa [mdel, List.filter_cons, mget?, he, he2] using ih

theorem mhas_mdel_ne {κ α : Type} [DecidableEq κ] (m : List (κ × α)) (k k2 : κ)
    (h : k2 ≠ k) : mhas (mdel m k) k2 = mhas m k2 := by
  simp [mhas, mget?_mdel_ne m k k2 h]

theorem muuid_length (n : Nat) : (muuid n).length = n + 1 := by
  simp [muuid, String.length]

theorem muuid_injective : Function.Injective muuid := by
  intro a b h
  have := congrArg String.length h
  simpa [muuid_length] using this

theorem muuid_ne_empty (n : Nat) : muuid n ≠ "" := by
  intro h
  have := congrArg String.length h
  simp [muuid_length] at this

theorem mget?_append_of_none {κ α : Type} [DecidableEq κ] (l l2 : List (κ × α)) (k : κ)
    (h : mget? l k = none) : mget? (l ++ l2) k = mget? l2 k := by
  induction l with
  | nil => simp
  | cons e rest ih =>
    by_cases he : e.1 = k
    · simp [mget?, he] at h
    · simp only [mget?, he, if_false, List.cons_append] at h ⊢
      exact ih h

theorem mget?_eq_none_of_forall_ne {κ α : Type} [DecidableEq κ] (l : List (κ × α)) (k : κ)
    (h : ∀ e ∈ l, e.1 ≠ k) : mget? l k = none := by
  induction l with
  | nil => simp [mget?]
  | cons e rest ih =>
    simp only [mget?, h e (List.mem_cons_self e rest), if_false]
    exact ih fun e2 he2 => h e2 (List.mem_cons_of_mem e he2)

theorem find?_mget? {κ α : Type} [DecidableEq κ] (l : List (κ × α)) (p : κ × α → Bool)
    (e : κ × α) (hnd : (l.map Prod.fst).Nodup) (h : l.find? p = some e) :
    mget? l e.1 = some e.2 := by
  induction l with
  | nil => simp at h
  | cons a rest ih =>
    rcases List.find?_cons_eq_some.mp h with ⟨hpa, rfl⟩ | ⟨hpa, hrest⟩
    · simp [mget?]
    · have hmem : e ∈ rest := List.mem_of_find?_eq_some hrest
      have hnd2 : a.1 ∉ rest.map Prod.fst ∧ (rest.map Prod.fst).Nodup := by
        simpa [List.nodup_cons] using hnd
      have hne : a.1 ≠ e.1 := fun hcontra =>
        hnd2.1 (by rw [hcontra]; exact List.mem_map_of_mem Prod.fst hmem)
      simp only [mget?, hne, if_false]
      exact ih hnd2.2 hrest

/-- C1 (amended): for every stored conversation and every positive limit `k`
strictly below the stored message count, `getConversationMessages` returns
exactly the last `k` messages of the log, in stored (oldest-first) order, and
performs no write on the store. -/
theorem getConversationMessages_tail (st : DbState) (conversationId : Nat)
    (conv : Conversation) (k : Nat)
    (hconv : mget? st.conversations conversationId = some conv)
    (hpos : 0 < k) (hlt : k < conv.messages.length) :
    getConversationMessages st conversationId k =
      .ok (conv.messages.drop (conv.messages.length - k)) ∧
    (conv.messages.drop (conv.messages.length - k)).length = k ∧
    (getConversationMessagesS st conversationId k).2 = st := by
  refine ⟨?_, ?_, rfl⟩
  · rw [getConversationMessages, hconv]
    have : k ≠ 0 ∧ conv.messages.length > k := ⟨Nat.pos_iff_ne_zero.mp hpos, hlt⟩
    simp [this]
  · rw [List.length_drop]
    omega

/-- Witness for the tail projection at a log of three messages and limit 2. -/
theorem getConversationMessages_tail_witness :
    getConversationMessages c1State 5 2 =
      .ok (c1Conv.messages.drop (c1Conv.messages.length - 2)) ∧
    (c1Conv.messages.drop (c1Conv.messages.length - 2)).length = 2 ∧
    (getConversationMessagesS c1State 5 2).2 = c1State :=
  getConversationMessages_tail c1State 5 c1Conv 2 (by decide) (by decide) (by decide)

/-- C1 counterexample: at limit `k = 0`, which is smaller than the stored
total of 3, the code returns the full log instead of the last 0 messages,
because a zero limit is falsy in the guard `limit && messages.length > limit`. -/
theorem getConversationMessages_zero_counterexample :
    (0 : Nat) < c1Conv.messages.length ∧
    getConversationMessages c1State 5 0 ≠
      .ok (c1Conv.messages.drop (c1Conv.messages.length - 0)) ∧
    getConversationMessages c1State 5 0 = .ok c1Conv.messages := by
  have hall : getConversationMessages c1State 5 0 = .ok c1Conv.messages := rfl
  refine ⟨by decide, ?_, hall⟩
  rw [hall]
  intro h
  exact absurd (Except.ok.inj h) (by decide)

/-- C8: the janitor sweep with cutoff `now - maxAge` removes exactly the agent
records whose `lastActive` is strictly older than the cutoff, keeps a record
whose `lastActive` equals the cutoff, and reports the removed count. -/
theorem removeInactiveAgents_strict (st : DbState) (maxAge now : Int) :
    (removeInactiveAgents st (now - maxAge)).2.agentsCol
        = st.agentsCol.filter (fun a => !(a.lastActive < now - maxAge : Bool)) ∧
    (removeInactiveAgents st (now - maxAge)).1.1
        = (st.agentsCol.filter (fun a => (a.lastActive < now - maxAge : Bool))).length ∧
    (∀ a ∈ st.agentsCol, a.lastActive = now - maxAge →
        a ∈ (removeInactiveAgents st (now - maxAge)).2.agentsCol) ∧
    (∀ a ∈ st.agentsCol, a.lastActive < now - maxAge →
        a ∉ (removeInactiveAgents st (now - maxAge)).2.agentsCol ∧
        a ∈ (removeInactiveAgents st (now - maxAge)).1.2) := by
  refine ⟨rfl, rfl, ?_, ?_⟩
  · intro a ha heq
    simp [removeInactiveAgents, List.mem_filter, ha, heq]
  · intro a ha hlt
    constructor
    · simp [removeInactiveAgents, List.mem_filter, hlt]
    · simp [removeInactiveAgents, List.mem_filter, ha, hlt]

/-- Witness at `now = 100`, `maxAge = 24`: the boundary record survives, the
strictly older one is removed and counted. -/
theorem removeInactiveAgents_strict_witness :
    c8Boundary ∈ (removeInactiveAgents c8State (100 - 24)).2.agentsCol ∧
    c8Old ∉ (removeInactiveAgents c8State (100 - 24)).2.agentsCol ∧
    (removeInactiveAgents c8State (100 - 24)).1.1 = 1 :=
  ⟨(removeInactiveAgents_strict c8State 24 100).2.2.1 c8Boundary (by decide) (by decide),
   ((removeInactiveAgents_strict c8State 24 100).2.2.2 c8Old (by decide) (by decide)).1,
   by decide⟩

theorem createOrUpdateAgent_genId (st : DbState) (u nm : String) (t : Int) (n : Nat) :
    (createOrUpdateAgent st u (muuid n) nm t).1.agentId = muuid n ∧
    (createOrUpdateAgent st u (muuid n) nm t).2.nextUuid = st.nextUuid := by
  unfold createOrUpdateAgent
  simp only [if_neg (muuid_ne_empty n)]
  cases hf : st.agentsCol.find? (fun a => a.userId == u && a.agentId == muuid n) with
  | none => simp
  | some a =>
    have hp := List.find?_some hf
    have ha : a.agentId = muuid n := eq_of_beq ((Bool.and_eq_true _ _).mp hp).2
    simp [ha]

theorem createOrUpdateAgent_insert (st : DbState) (u nm : String) (t : Int) (n : Nat)
    (hfresh : ∀ a ∈ st.agentsCol, a.agentId.length ≤ n) :
    (createOrUpdateAgent st u (muuid n) nm t).2.agentsCol
      = st.agentsCol ++ [(createOrUpdateAgent st u (muuid n) nm t).1] ∧
    (createOrUpdateAgent st u (muuid n) nm t).1.agentId = muuid n := by
  have hnone : st.agentsCol.find? (fun a => a.userId == u && a.agentId == muuid n) = none := by
    apply List.find?_eq_none.mpr
    intro a ha
    have hne : a.agentId ≠ muuid n := by
      intro h
      have hlen := congrArg String.length h
      rw [muuid_length] at hlen
      have := hfresh a ha
      omega
    simp [beq_iff_eq, hne]
  unfold createOrUpdateAgent
  simp only [if_neg (muuid_ne_empty n), hnone]
  exact ⟨trivial, trivial⟩

theorem initializeAgentHandler_fresh (st : DbState) (u nm : String) (t : Int)
    (hu : u ≠ "") (hn : nm ≠ "")
    (hfresh : ∀ a ∈ st.agentsCol, a.agentId.length ≤ st.nextUuid) :
    (initializeAgentHandler st u "" nm t).1.agentId = some (muuid st.nextUuid) ∧
    (initializeAgentHandler st u "" nm t).2.nextUuid = st.nextUuid + 1 ∧
    (initializeAgentHandler st u "" nm t).2.agentsCol.length = st.agentsCol.length + 1 ∧
    (∀ a ∈ (initializeAgentHandler st u "" nm t).2.agentsCol,
        a.agentId.length ≤ st.nextUuid + 1) := by
  have hcond : ¬(u = "" ∨ nm = "") := by simp [hu, hn]
  unfold initializeAgentHandler
  simp only [hcond, if_false, if_pos rfl, if_true]
  set st1 : DbState := { st with nextUuid := st.nextUuid + 1 } with hst1
  have hf1 : ∀ a ∈ st1.agentsCol, a.agentId.length ≤ st.nextUuid := hfresh
  obtain ⟨hcol, hid⟩ :=
    createOrUpdateAgent_insert st1 (sanitizeInput u) (sanitizeInput nm) t st.nextUuid hf1
  obtain ⟨hid2, hcnt⟩ :=
    createOrUpdateAgent_genId st1 (sanitizeInput u) (sanitizeInput nm) t st.nextUuid
  refine ⟨by simp [hid2], by simp [hcnt], by simp [hcol], ?_⟩
  intro a ha
  rw [hcol] at ha
  rcases List.mem_append.mp ha with hold | hnew
  · have := hfresh a hold
    omega
  · have heq : a = (createOrUpdateAgent st1 (sanitizeInput u) (muuid st.nextUuid)
        (sanitizeInput nm) t).1 := by
      simpa using hnew
    rw [heq, hid, muuid_length]

theorem runInitCalls_spec (reqs : List (String × String × Int)) :
    ∀ st : DbState, (∀ r ∈ reqs, r.1 ≠ "" ∧ r.2.1 ≠ "") →
    (∀ a ∈ st.agentsCol, a.agentId.length ≤ st.nextUuid) →
    (runInitCalls st reqs).1 =
        (List.range' st.nextUuid reqs.length).map (fun n => some (muuid n)) ∧
    (runInitCalls st reqs).2.nextUuid = st.nextUuid + reqs.length ∧
    (runInitCalls st reqs).2.agentsCol.length = st.agentsCol.length + reqs.length ∧
    (∀ a ∈ (runInitCalls st reqs).2.agentsCol,
        a.agentId.length ≤ st.nextUuid + reqs.length) := by
  induction reqs with
  | nil => intro st _ hfresh; simpa [runInitCalls] using hfresh
  | cons r rest ih =>
    intro st hreqs hfresh
    obtain ⟨hid, hcnt, hlen, hfr⟩ :=
      initializeAgentHandler_fresh st r.1 r.2.1 r.2.2
        (hreqs r (List.mem_cons_self r rest)).1 (hreqs r (List.mem_cons_self r rest)).2 hfresh
    set st1 := (initializeAgentHandler st r.1 "" r.2.1 r.2.2).2 with hst1
    have hfresh1 : ∀ a ∈ st1.agentsCol, a.agentId.length ≤ st1.nextUuid := by
      rw [hcnt]; exact hfr
    obtain ⟨ih1, ih2, ih3, ih4⟩ :=
      ih st1 (fun r2 hr2 => hreqs r2 (List.mem_cons_of_mem r hr2)) hfresh1
    refine ⟨?_, ?_, ?_, ?_⟩
    · simp only [runInitCalls, List.length_cons, List.range'_succ, List.map_cons]
      rw [← hst1]
      refine congrArg₂ _ hid ?_
      rw [ih1, hcnt]
    · simp only [runInitCalls]
      rw [← hst1, ih2, hcnt, List.length_cons]
      omega
    · simp only [runInitCalls]
      rw [← hst1, ih3, hlen, List.length_cons]
      omega
    · simp only [runInitCalls]
      rw [← hst1]
      intro a ha
      have := ih4 a ha
      rw [hcnt] at this
      simpa [List.length_cons] using Nat.le_trans this (by omega)

/-- C2 (amended): along any sequence of initialize-agent calls that omit the
optional agentId field, every call draws a fresh identifier and inserts a new
record, and no two returned agentId values are equal. (A call that supplies
the agentId of an existing record instead updates that record and returns the
supplied identifier again, see the counterexample.) -/
theorem initializeAgent_fresh_ids_distinct (st : DbState) (reqs : List (String × String × Int))
    (hreqs : ∀ r ∈ reqs, r.1 ≠ "" ∧ r.2.1 ≠ "")
    (hfresh : ∀ a ∈ st.agentsCol, a.agentId.length ≤ st.nextUuid) :
    (runInitCalls st reqs).1 =
        (List.range' st.nextUuid reqs.length).map (fun n => some (muuid n)) ∧
    (runInitCalls st reqs).1.Nodup ∧
    (runInitCalls st reqs).2.agentsCol.length = st.agentsCol.length + reqs.length := by
  obtain ⟨h1, _, h3, _⟩ := runInitCalls_spec reqs st hreqs hfresh
  refine ⟨h1, ?_, h3⟩
  rw [h1]
  exact List.Nodup.map
    (Function.Injective.comp (Option.some_injective String) muuid_injective)
    (List.nodup_range' st.nextUuid reqs.length)

/-- Witness: two fresh creates for the same owner return two distinct ids and
insert two records. -/
theorem initializeAgent_fresh_ids_distinct_witness :
    (runInitCalls dbEmpty [("userA", "Tracker", 0), ("userA", "Helper", 1)]).1 =
        (List.range' dbEmpty.nextUuid 2).map (fun n => some (muuid n)) ∧
    (runInitCalls dbEmpty [("userA", "Tracker", 0), ("userA", "Helper", 1)]).1.Nodup ∧
    (runInitCalls dbEmpty [("userA", "Tracker", 0), ("userA", "Helper", 1)]).2.agentsCol.length
        = dbEmpty.agentsCol.length + 2 :=
  initializeAgent_fresh_ids_distinct dbEmpty [("userA", "Tracker", 0), ("userA", "Helper", 1)]
    (by decide) (by decide)

/-- C2 counterexample: the initialize-agent endpoint accepts a caller-supplied
agentId; two calls supplying the same id both return that id, and the second
call updates the existing record rather than inserting a fresh one. -/
theorem initializeAgent_reuse_counterexample :
    (initializeAgentHandler dbEmpty "userA" "a1" "Tracker" 0).1.agentId = some "a1" ∧
    (initializeAgentHandler (initializeAgentHandler dbEmpty "userA" "a1" "Tracker" 0).2
        "userA" "a1" "Tracker" 1).1.agentId = some "a1" ∧
    (initializeAgentHandler (initializeAgentHandler dbEmpty "userA" "a1" "Tracker" 0).2
        "userA" "a1" "Tracker" 1).2.agentsCol.length = 1 := by
  refine ⟨by decide, by decide, by decide⟩

theorem mget?_append_right_ne {κ α : Type} [DecidableEq κ] (l : List (κ × α)) (k k2 : κ)
    (v : α) (h : k2 ≠ k) : mget? (l ++ [(k, v)]) k2 = mget? l k2 := by
  induction l with
  | nil => simp [mget?, Ne.symm h]
  | cons e rest ih => by_cases he : e.1 = k2 <;> simp [mget?, he, ih]

theorem updateAgentActivity_conv (st : DbState) (userId agentId : String) (now : Int) :
    (updateAgentActivity st userId agentId now).2.conversations = st.conversations ∧
    (updateAgentActivity st userId agentId now).2.nextConvId = st.nextConvId := by
  unfold updateAgentActivity
  cases hf : st.agentsCol.find? (fun a => a.userId == userId && a.agentId == agentId) with
  | none => simp [hf]
  | some a => simp [hf]

/-- C4: failure atomicity of the message route. A failure before the user
message is appended (the agent lookup, the point where the spec router binds
the runtimes) leaves the state untouched; a failure of the conversational
invocation after the user message was appended leaves exactly that user
message persisted at the tail of the log, appends no assistant message, and
touches no other conversation entry. -/
theorem processMessage_failure_atomicity (st : DbState) (userId agentId message : String)
    (chat : Except Unit String) (now : Int)
    (hnz : ¬(userId = "" ∨ agentId = "" ∨ message = ""))
    (hnd : (st.conversations.map Prod.fst).Nodup)
    (hfresh : ∀ e ∈ st.conversations, e.1 < st.nextConvId) :
    (getMongoAgent st (sanitizeInput userId) (sanitizeInput agentId) = none →
        processMessageHandler st userId agentId message chat now =
          ({ status := 404, success := false, response := none }, st)) ∧
    (∀ a, getMongoAgent st (sanitizeInput userId) (sanitizeInput agentId) = some a →
      chat = .error () →
      ∃ cid conv2,
        (processMessageHandler st userId agentId message chat now).1 =
            { status := 500, success := false, response := none } ∧
        mget? (processMessageHandler st userId agentId message chat now).2.conversations cid =
            some conv2 ∧
        conv2.messages =
            (match findConversation st (sanitizeInput userId) (sanitizeInput agentId) with
              | some e => e.2.messages
              | none => []) ++
            [{ role := "user", content := sanitizeInput message, timestamp := now }] ∧
        (∀ cid2, cid2 ≠ cid →
            mget? (processMessageHandler st userId agentId message chat now).2.conversations
                cid2 =
              mget? st.conversations cid2)) := by
  constructor
  · intro hag
    unfold processMessageHandler
    simp [hnz, hag]
  · intro a hag hchat
    have hconv1 :=
      updateAgentActivity_conv st (sanitizeInput userId) (sanitizeInput agentId) now
    set st1 :=
      (updateAgentActivity st (sanitizeInput userId) (sanitizeInput agentId) now).2 with hst1
    have hfind1 : findConversation st1 (sanitizeInput userId) (sanitizeInput agentId) =
        findConversation st (sanitizeInput userId) (sanitizeInput agentId) := by
      unfold findConversation
      rw [hconv1.1]
    have hrole : ("user" = "user" ∨ "user" = "assistant" ∨ "user" = "system") := Or.inl rfl
    cases hfind : findConversation st (sanitizeInput userId) (sanitizeInput agentId) with
    | some e =>
      have hget : mget? st1.conversations e.1 = some e.2 := by
        rw [hconv1.1]
        exact find?_mget? _ _ _ hnd hfind
      have hgoc : getOrCreateConversation st1 (sanitizeInput userId) (sanitizeInput agentId)
          now = (e, st1) := by
        unfold getOrCreateConversation
        rw [hfind1, hfind]
      have hadd : addMessageToConversation st1 e.1 "user" (sanitizeInput message) now =
          .ok { st1 with
                  conversations := mset st1.conversations e.1
                    { e.2 with
                        messages := e.2.messages ++
                          [{ role := "user", content := sanitizeInput message,
                             timestamp := now }],
                        updatedAt := now } } := by
        unfold addMessageToConversation
        rw [if_pos hrole, hget]
      have hkey : processMessageHandler st userId agentId message chat now =
          ({ status := 500, success := false, response := none },
           { st1 with
               conversations := mset st1.conversations e.1
                 { e.2 with
                     messages := e.2.messages ++
                       [{ role := "user", content := sanitizeInput message, timestamp := now }],
                     updatedAt := now } }) := by
        unfold processMessageHandler
        simp only [hnz, if_false, hag, hgoc, hadd, hchat]
      refine ⟨e.1,
        { e.2 with
            messages := e.2.messages ++
              [{ role := "user", content := sanitizeInput message, timestamp := now }],
            updatedAt := now }, ?_, ?_, ?_, ?_⟩
      · rw [hkey]
      · rw [hkey]
        exact mget?_mset_self _ _ _
      · simp [hfind]
      · intro cid2 hcid2
        rw [hkey]
        show mget? (mset st1.conversations e.1 _) cid2 = _
        rw [mget?_mset_ne _ _ _ _ hcid2, hconv1.1]
    | none =>
      have hnone1 : mget? st1.conversations st1.nextConvId = none := by
        rw [hconv1.1, hconv1.2]
        exact mget?_eq_none_of_forall_ne _ _ fun e he => Nat.ne_of_lt (hfresh e he)
      have hgoc : getOrCreateConversation st1 (sanitizeInput userId) (sanitizeInput agentId)
          now =
          ((st1.nextConvId,
            { userId := sanitizeInput userId, agentId := sanitizeInput agentId,
              messages := [], createdAt := now, updatedAt := now }),
           { st1 with
               conversations := st1.conversations ++
                 [(st1.nextConvId,
                   { userId := sanitizeInput userId, agentId := sanitizeInput agentId,
                     messages := [], createdAt := now, updatedAt := now })],
               nextConvId := st1.nextConvId + 1 }) := by
        unfold getOrCreateConversation
        rw [hfind1, hfind]
      have hget2 : mget? (st1.conversations ++
          [(st1.nextConvId,
            ({ userId := sanitizeInput userId, agentId := sanitizeInput agentId,
               messages := [], createdAt := now, updatedAt := now } : Conversation))])
          st1.nextConvId =
          some { userId := sanitizeInput userId, agentId := sanitizeInput agentId,
                 messages := [], createdAt := now, updatedAt := now } := by
        rw [mget?_append_of_none _ _ _ hnone1]
        simp [mget?]
      have hadd : addMessageToConversation
          { st1 with
              conversations := st1.conversations ++
                [(st1.nextConvId,
                  { userId := sanitizeInput userId, agentId := sanitizeInput agentId,
                    messages := [], createdAt := now, updatedAt := now })],
              nextConvId := st1.nextConvId + 1 }
          st1.nextConvId "user" (sanitizeInput message) now =
          .ok { st1 with
                  conversations := mset
                    (st1.conversations ++
                      [(st1.nextConvId,
                        { userId := sanitizeInput userId, agentId := sanitizeInput agentId,
                          messages := [], createdAt := now, updatedAt := now })])
                    st1.nextConvId
                    { userId := sanitizeInput userId, agentId := sanitizeInput agentId,
                      messages :=
                        [{ role := "user", content := sanitizeInput message, timestamp := now }],
                      createdAt := now, updatedAt := now },
                  nextConvId := st1.nextConvId + 1 } := by
        unfold addMessageToConversation
        rw [if_pos hrole]
        simp only [hget2]
        rfl
      have hkey : processMessageHandler st userId agentId message chat now =
          ({ status := 500, success := false, response := none },
           { st1 with
               conversations := mset
                 (st1.conversations ++
                   [(st1.nextConvId,
                     { userId := sanitizeInput userId, agentId := sanitizeInput agentId,
                       messages := [], createdAt := now, updatedAt := now })])
                 st1.nextConvId
                 { userId := sanitizeInput userId, agentId := sanitizeInput agentId,
                   messages :=
                     [{ role := "user", content := sanitizeInput message, timestamp := now }],
                   createdAt := now, updatedAt := now },
               nextConvId := st1.nextConvId + 1 }) := by
        unfold processMessageHandler
        simp only [hnz, if_false, hag, hgoc, hadd, hchat]
      refine ⟨st1.nextConvId,
        { userId := sanitizeInput userId, agentId := sanitizeInput agentId,
          messages := [{ role := "user", content := sanitizeInput message, timestamp := now }],
          createdAt := now, updatedAt := now }, ?_, ?_, ?_, ?_⟩
      · rw [hkey]
      · rw [hkey]
        exact mget?_mset_self _ _ _
      · simp [hfind]
      · intro cid2 hcid2
        rw [hkey]
        show mget? (mset _ st1.nextConvId _) cid2 = _
        rw [mget?_mset_ne _ _ _ _ hcid2, mget?_append_right_ne _ _ _ _ hcid2, hconv1.1]

/-- Witness: routing to an unknown agent is rejected with 404 and no state
change, and a failing chat call after the user append surfaces as 500. -/
theorem processMessage_failure_atomicity_witness :
    processMessageHandler c4State "userB" "agentX" "hi" (.error ()) 7 =
      ({ status := 404, success := false, response := none }, c4State) ∧
    (processMessageHandler c4State "userA" "ag1" "hello" (.error ()) 7).1 =
      { status := 500, success := false, response := none } := by
  constructor
  · exact (processMessage_failure_atomicity c4State "userB" "agentX" "hi" (.error ()) 7
      (by decide) (by decide) (by decide)).1 (by decide)
  · obtain ⟨cid, conv2, h1, _, _, _⟩ :=
      (processMessage_failure_atomicity c4State "userA" "ag1" "hello" (.error ()) 7
        (by decide) (by decide) (by decide)).2 c4Agent (by decide) rfl
    exact h1

theorem mset_mset_same {κ α : Type} [DecidableEq κ] (m : List (κ × α)) (k : κ) (v w : α) :
    mset (mset m k v) k w = mset m k w := by
  induction m with
  | nil => simp [mset]
  | cons e rest ih => by_cases he : e.1 = k <;> simp [mset, he, ih]

theorem mget?_mset_cases {κ α : Type} [DecidableEq κ] (m : List (κ × α)) (k k2 : κ) (v w : α)
    (h : mget? (mset m k v) k2 = some w) : (k2 = k ∧ w = v) ∨ mget? m k2 = some w := by
  by_cases hk : k2 = k
  · subst hk
    rw [mget?_mset_self] at h
    exact Or.inl ⟨rfl, (Option.some.inj h).symm⟩
  · rw [mget?_mset_ne _ _ _ _ hk] at h
    exact Or.inr h

theorem mget?_mdel_some {κ α : Type} [DecidableEq κ] (m : List (κ × α)) (k k2 : κ) (v : α)
    (h : mget? (mdel m k) k2 = some v) : k2 ≠ k ∧ mget? m k2 = some v := by
  by_cases hk : k2 = k
  · subst hk
    rw [mget?_mdel_self] at h
    exact absurd h (by simp)
  · rw [mget?_mdel_ne _ _ _ hk] at h
    exact ⟨hk, h⟩

theorem aptosInitializeAgent_ok (st st2 : RegState) (pk : String) (keyOk : Bool)
    (h : aptosInitializeAgent st pk keyOk = .ok st2) :
    st2.agents = st.agents ∧ st2.userAgents = st.userAgents ∧ st2.nextUuid = st.nextUuid ∧
    st2.svcAgent = some st.nextHandle ∧ st2.svcLlm = st.svcLlm := by
  unfold aptosInitializeAgent at h
  by_cases hk : keyOk
  · simp [hk] at h
    rw [← h]
    exact ⟨rfl, rfl, rfl, rfl, rfl⟩
  · simp [hk] at h

theorem aptosInitializeLLMAgent_ok (st st2 : RegState) (apiKeyOk llmOk : Bool)
    (h : aptosInitializeLLMAgent st apiKeyOk llmOk = .ok st2) :
    st2.agents = st.agents ∧ st2.userAgents = st.userAgents ∧ st2.nextUuid = st.nextUuid ∧
    st2.svcLlm = some st.nextHandle ∧ st2.svcAgent = st.svcAgent := by
  unfold aptosInitializeLLMAgent at h
  by_cases ha : apiKeyOk
  · by_cases hsvc : st.svcAgent = none
    · simp [ha, hsvc] at h
    · by_cases hl : llmOk
      · simp [ha, hsvc, hl] at h
        rw [← h]
        exact ⟨rfl, rfl, rfl, rfl, rfl⟩
      · simp [ha, hsvc, hl] at h
  · simp [ha] at h

theorem aptosProcessAgentMessage_fields (st : RegState) (msgs : List ChatMsg)
    (apiKeyOk llmOk : Bool) (r : Except Unit (List ChatMsg)) :
    (aptosProcessAgentMessage st msgs apiKeyOk llmOk r).2.agents = st.agents ∧
    (aptosProcessAgentMessage st msgs apiKeyOk llmOk r).2.userAgents = st.userAgents ∧
    (aptosProcessAgentMessage st msgs apiKeyOk llmOk r).2.nextUuid = st.nextUuid := by
  unfold aptosProcessAgentMessage
  by_cases hsvc : st.svcLlm = none
  · simp only [hsvc, if_true, if_pos rfl]
    cases hini : aptosInitializeLLMAgent st apiKeyOk llmOk with
    | error e => simp
    | ok st1 =>
      obtain ⟨h1, h2, h3, _, _⟩ := aptosInitializeLLMAgent_ok st st1 apiKeyOk llmOk hini
      cases r <;> simp [h1, h2, h3]
  · simp only [hsvc, if_false]
    cases r <;> simp

theorem aptosProcessAgentMessage_no_bind (st : RegState) (msgs : List ChatMsg)
    (apiKeyOk llmOk : Bool) (r : Except Unit (List ChatMsg)) (h : st.svcLlm ≠ none) :
    (aptosProcessAgentMessage st msgs apiKeyOk llmOk r).2 = st := by
  unfold aptosProcessAgentMessage
  simp only [h, if_false]
  cases r <;> simp

theorem ensureAgentBound_error (st : RegState) (agentId : String) (ad : AgentData)
    (keyOk : Bool) (es : String × RegState)
    (h : ensureAgentBound st agentId ad keyOk = .error es) : es.2 = st := by
  unfold ensureAgentBound at h
  by_cases hag : ad.agent = none
  · rw [if_pos hag] at h
    cases hini : aptosInitializeAgent st ad.privateKey keyOk with
    | error e =>
      rw [hini] at h
      simp only [Except.error.injEq] at h
      rw [← h]
    | ok st2 =>
      rw [hini] at h
      simp at h
  · rw [if_neg hag] at h
    simp at h

theorem ensureAgentBound_ok (st st1 : RegState) (agentId : String) (ad ad1 : AgentData)
    (keyOk : Bool) (h : ensureAgentBound st agentId ad keyOk = .ok (ad1, st1)) :
    ad1.agent.isSome = true ∧ ad1.llmAgent = ad.llmAgent ∧ ad1.userId = ad.userId ∧
    st1.userAgents = st.userAgents ∧ st1.nextUuid = st.nextUuid ∧ st1.svcLlm = st.svcLlm ∧
    (st1.agents = st.agents ∨ st1.agents = mset st.agents agentId ad1) := by
  unfold ensureAgentBound at h
  by_cases hag : ad.agent = none
  · rw [if_pos hag] at h
    cases hini : aptosInitializeAgent st ad.privateKey keyOk with
    | error e => rw [hini] at h; simp at h
    | ok st2 =>
      rw [hini] at h
      simp only [Except.ok.injEq, Prod.mk.injEq] at h
      obtain ⟨hA, hS⟩ := h
      obtain ⟨h1, h2, h3, h4, h5⟩ := aptosInitializeAgent_ok st st2 ad.privateKey keyOk hini
      subst hA
      subst hS
      refine ⟨by simp [h4], rfl, rfl, h2, h3, h5, Or.inr ?_⟩
      rw [h1]
  · rw [if_neg hag] at h
    simp only [Except.ok.injEq, Prod.mk.injEq] at h
    obtain ⟨hA, hS⟩ := h
    subst hA
    subst hS
    exact ⟨Option.isSome_iff_ne_none.mpr hag, rfl, rfl, rfl, rfl, rfl, Or.inl rfl⟩

theorem processAgentMessage_shape (st : RegState) (agentId : String) (msgs : List ChatMsg)
    (keyOk apiKeyOk llmOk : Bool) (r : Except Unit (List ChatMsg)) :
    (processAgentMessage st agentId msgs keyOk apiKeyOk llmOk r).2.userAgents =
        st.userAgents ∧
    (processAgentMessage st agentId msgs keyOk apiKeyOk llmOk r).2.nextUuid = st.nextUuid ∧
    ((processAgentMessage st agentId msgs keyOk apiKeyOk llmOk r).2.agents = st.agents ∨
      ∃ ad0 v, mget? st.agents agentId = some ad0 ∧ v.userId = ad0.userId ∧
        (v.llmAgent.isSome = true → v.agent.isSome = true) ∧
        (processAgentMessage st agentId msgs keyOk apiKeyOk llmOk r).2.agents =
          mset st.agents agentId v) := by
  unfold processAgentMessage
  by_cases hid : agentId = ""
  · simp [hid]
  · rw [if_neg hid]
    cases hget : mget? st.agents agentId with
    | none => simp
    | some agentData =>
      simp only []
      by_cases hllm : agentData.llmAgent = none
      · rw [if_pos hllm]
        cases hens : ensureAgentBound st agentId agentData keyOk with
        | error es =>
          have hes := ensureAgentBound_error st agentId agentData keyOk es hens
          simp [hes]
        | ok p =>
          obtain ⟨ad1, st1⟩ := p
          obtain ⟨e1, e2, e3, e4, e5, e6, e7⟩ :=
            ensureAgentBound_ok st st1 agentId agentData ad1 keyOk hens
          simp only []
          cases hini : aptosInitializeLLMAgent st1 apiKeyOk llmOk with
          | error e =>
            exact ⟨e4, e5, e7.imp id (fun h7 => ⟨agentData, ad1, rfl, e3,
              (fun hc => by rw [e2, hllm] at hc; simp at hc), h7⟩)⟩
          | ok st2 =>
            obtain ⟨l1, l2, l3, l4, l5⟩ :=
              aptosInitializeLLMAgent_ok st1 st2 apiKeyOk llmOk hini
            obtain ⟨f1, f2, f3⟩ := aptosProcessAgentMessage_fields
              { st2 with agents := mset st2.agents agentId { ad1 with llmAgent := st2.svcLlm } }
              msgs apiKeyOk llmOk r
            refine ⟨?_, ?_, Or.inr ⟨agentData, { ad1 with llmAgent := st2.svcLlm }, rfl, e3,
              fun _ => e1, ?_⟩⟩
            · rw [f2]
              simp only []
              rw [l2, e4]
            · rw [f3]
              simp only []
              rw [l3, e5]
            · rw [f1]
              simp only []
              rw [l1]
              rcases e7 with h7 | h7
              · rw [h7]
              · rw [h7, mset_mset_same]
      · rw [if_neg hllm]
        obtain ⟨f1, f2, f3⟩ := aptosProcessAgentMessage_fields st msgs apiKeyOk llmOk r
        exact ⟨f2, f3, Or.inl f1⟩

theorem initializeUserAgent_shape (st : RegState) (userId privateKey name : String)
    (now : Nat) (keyOk : Bool) :
    ((initializeUserAgent st userId privateKey name now keyOk).2.agents = st.agents ∧
     (initializeUserAgent st userId privateKey name now keyOk).2.userAgents = st.userAgents ∧
     st.nextUuid ≤ (initializeUserAgent st userId privateKey name now keyOk).2.nextUuid) ∨
    (userId ≠ "" ∧
     ∃ ad : AgentData, ad.userId = userId ∧ ad.llmAgent = none ∧
       (initializeUserAgent st userId privateKey name now keyOk).2.agents =
         mset st.agents (muuid st.nextUuid) ad ∧
       mget? (initializeUserAgent st userId privateKey name now keyOk).2.userAgents userId =
         some (((mget? st.userAgents userId).getD []) ++ [muuid st.nextUuid]) ∧
       (∀ uid2, uid2 ≠ userId →
         mget? (initializeUserAgent st userId privateKey name now keyOk).2.userAgents uid2 =
           mget? st.userAgents uid2) ∧
       (initializeUserAgent st userId privateKey name now keyOk).2.nextUuid =
         st.nextUuid + 1) := by
  unfold initializeUserAgent
  by_cases hu : userId = ""
  · rw [if_pos hu]
    exact Or.inl ⟨rfl, rfl, Nat.le_refl _⟩
  · rw [if_neg hu]
    by_cases hp : privateKey = ""
    · rw [if_pos hp]
      exact Or.inl ⟨rfl, rfl, Nat.le_refl _⟩
    · rw [if_neg hp]
      simp only []
      cases hini : aptosInitializeAgent { st with nextUuid := st.nextUuid + 1 } privateKey
          keyOk with
      | error e =>
        simp only []
        exact Or.inl ⟨trivial, trivial, Nat.le_succ _⟩
      | ok st2 =>
        simp only []
        obtain ⟨h1, h2, h3, h4, h5⟩ :=
          aptosInitializeAgent_ok _ st2 privateKey keyOk hini
        simp only [] at h1 h2 h3
        refine Or.inr ⟨hu, ?_⟩
        refine ⟨{ agent := st2.svcAgent, privateKey := privateKey,
                  llmAgent := none, userId := userId,
                  name := if name = "" then "Agent-" ++ (muuid st.nextUuid).take 8 else name,
                  initialized := true, createdAt := now }, rfl, rfl, ?_, ?_, ?_, ?_⟩
        · rw [h1]
        · rw [mget?_mset_self, h2]
          by_cases hh : mhas st.userAgents userId = true
          · rw [if_pos hh]
          · rw [if_neg hh, mget?_mset_self]
            cases hc : mget? st.userAgents userId with
            | none => rfl
            | some l =>
              unfold mhas at hh
              rw [hc] at hh
              simp at hh
        · intro uid2 huid2
          rw [mget?_mset_ne _ _ _ _ huid2, h2]
          by_cases hh : mhas st.userAgents userId = true
          · rw [if_pos hh]
          · rw [if_neg hh, mget?_mset_ne _ _ _ _ huid2]
        · exact h3

theorem updateAgentName_shape (st : RegState) (agentId name : String) :
    (updateAgentName st agentId name).2.userAgents = st.userAgents ∧
    (updateAgentName st agentId name).2.nextUuid = st.nextUuid ∧
    ((updateAgentName st agentId name).2.agents = st.agents ∨
      ∃ ad0, mget? st.agents agentId = some ad0 ∧
        (updateAgentName st agentId name).2.agents =
          mset st.agents agentId { ad0 with name := name }) := by
  unfold updateAgentName
  by_cases hid : agentId = ""
  · rw [if_pos hid]
    exact ⟨rfl, rfl, Or.inl rfl⟩
  · rw [if_neg hid]
    cases hget : mget? st.agents agentId with
    | none => exact ⟨rfl, rfl, Or.inl rfl⟩
    | some ad0 =>
      simp only []
      by_cases hn : name = ""
      · rw [if_pos hn]
        exact ⟨rfl, rfl, Or.inl rfl⟩
      · rw [if_neg hn]
        cases hga : getAgent
            { st with agents := mset st.agents agentId { ad0 with name := name } } agentId with
        | none => exact ⟨rfl, rfl, Or.inr ⟨ad0, rfl, rfl⟩⟩
        | some s => exact ⟨rfl, rfl, Or.inr ⟨ad0, rfl, rfl⟩⟩

theorem removeAgent_shape (st : RegState) (agentId : String) :
    (removeAgent st agentId).2.nextUuid = st.nextUuid ∧
    (((removeAgent st agentId).2.agents = st.agents ∧
      (removeAgent st agentId).2.userAgents = st.userAgents) ∨
     ∃ ad0, mget? st.agents agentId = some ad0 ∧
       (removeAgent st agentId).2.agents = mdel st.agents agentId ∧
       (removeAgent st agentId).2.userAgents =
         (match mget? st.userAgents ad0.userId with
          | none => st.userAgents
          | some lst =>
            if (lst.filter (fun i => i != agentId)).length = 0 then
              mdel st.userAgents ad0.userId
            else mset st.userAgents ad0.userId (lst.filter (fun i => i != agentId)))) := by
  unfold removeAgent
  by_cases hid : agentId = ""
  · rw [if_pos hid]
    exact ⟨rfl, Or.inl ⟨rfl, rfl⟩⟩
  · rw [if_neg hid]
    cases hget : mget? st.agents agentId with
    | none => exact ⟨rfl, Or.inl ⟨rfl, rfl⟩⟩
    | some ad0 =>
      cases hua : mget? st.userAgents ad0.userId with
      | none =>
        refine ⟨?_, Or.inr ⟨ad0, ?_, ?_, ?_⟩⟩ <;> simp [hua]
      | some lst =>
        by_cases hlen : (lst.filter (fun i => i != agentId)).length = 0
        · refine ⟨?_, Or.inr ⟨ad0, ?_, ?_, ?_⟩⟩ <;> simp [hua, hlen]
        · refine ⟨?_, Or.inr ⟨ad0, ?_, ?_, ?_⟩⟩ <;> simp [hua, hlen]

theorem foldl_removeStep_mget? (lst : List String) :
    ∀ (m : List (String × AgentData)) (c : Nat) (k : String),
      mget? ((lst.foldl (fun acc agentId =>
        if mhas acc.1 agentId then (mdel acc.1 agentId, acc.2 + 1) else acc) (m, c)).1) k =
      if k ∈ lst then none else mget? m k := by
  induction lst with
  | nil =>
    intro m c k
    simp
  | cons id rest ih =>
    intro m c k
    simp only [List.foldl_cons]
    by_cases hhas : mhas m id = true
    · rw [if_pos hhas, ih]
      by_cases hk : k = id
      · subst hk
        by_cases hkr : k ∈ rest
        · simp [hkr]
        · simp [hkr, mget?_mdel_self]
      · by_cases hkr : k ∈ rest
        · simp [hkr]
        · simp [hkr, hk, mget?_mdel_ne _ _ _ hk]
    · rw [if_neg hhas, ih]
      by_cases hk : k = id
      · subst hk
        have hmn : mget? m k = none := by
          unfold mhas at hhas
          cases hc : mget? m k with
          | none => rfl
          | some v => rw [hc] at hhas; simp at hhas
        by_cases hkr : k ∈ rest <;> simp [hkr, hmn]
      · by_cases hkr : k ∈ rest <;> simp [hkr, hk]

theorem foldl_removeStep_count (lst : List String) :
    ∀ (m : List (String × AgentData)) (c : Nat), lst.Nodup →
      (∀ id2 ∈ lst, mhas m id2 = true) →
      (lst.foldl (fun acc agentId =>
        if mhas acc.1 agentId then (mdel acc.1 agentId, acc.2 + 1) else acc) (m, c)).2 =
        c + lst.length := by
  induction lst with
  | nil =>
    intro m c _ _
    simp
  | cons id rest ih =>
    intro m c hnd hall
    simp only [List.foldl_cons]
    rw [if_pos (hall id (List.mem_cons_self id rest))]
    have hall2 : ∀ id2 ∈ rest, mhas (mdel m id) id2 = true := by
      intro id2 h2
      rw [mhas_mdel_ne m id id2 (fun hcontra => (List.nodup_cons.mp hnd).1 (hcontra ▸ h2))]
      exact hall id2 (List.mem_cons_of_mem id h2)
    rw [ih _ _ (List.nodup_cons.mp hnd).2 hall2]
    simp only [List.length_cons]
    omega

theorem removeUserAgents_shape (st : RegState) (userId : String) :
    (removeUserAgents st userId).2.nextUuid = st.nextUuid ∧
    (((removeUserAgents st userId).2.agents = st.agents ∧
      (removeUserAgents st userId).2.userAgents = st.userAgents) ∨
     ∃ lst, mget? st.userAgents userId = some lst ∧
       (removeUserAgents st userId).2.userAgents = mdel st.userAgents userId ∧
       (∀ k, mget? (removeUserAgents st userId).2.agents k =
          if k ∈ lst then none else mget? st.agents k)) := by
  unfold removeUserAgents
  by_cases hid : userId = ""
  · rw [if_pos hid]
    exact ⟨rfl, Or.inl ⟨rfl, rfl⟩⟩
  · rw [if_neg hid]
    cases hua : mget? st.userAgents userId with
    | none => exact ⟨rfl, Or.inl ⟨rfl, rfl⟩⟩
    | some lst =>
      refine ⟨?_, Or.inr ⟨lst, ?_, ?_, ?_⟩⟩
      · rfl
      · rfl
      · rfl
      · intro k
        exact foldl_removeStep_mget? lst st.agents 0 k

theorem bindOrder_reach (st : RegState) (h : RegReach st) : BindOrder st := by
  induction h with
  | init =>
    intro aid ad h1 _
    simp [regInit, mget?] at h1
  | create st userId privateKey name now keyOk _ ih =>
    rcases initializeUserAgent_shape st userId privateKey name now keyOk with
      ⟨ha, _, _⟩ | ⟨_, ad, hadu, hadl, ha, _, _, _⟩
    · intro aid ad2 h1 h2
      rw [ha] at h1
      exact ih aid ad2 h1 h2
    · intro aid ad2 h1 h2
      rw [ha] at h1
      rcases mget?_mset_cases _ _ _ _ _ h1 with ⟨_, rfl⟩ | hold
      · rw [hadl] at h2
        simp at h2
      · exact ih aid ad2 hold h2
  | process st agentId msgs keyOk apiKeyOk llmOk r _ ih =>
    rcases (processAgentMessage_shape st agentId msgs keyOk apiKeyOk llmOk r).2.2 with
      ha | ⟨ad0, v, hget0, hvu, hvi, ha⟩
    · intro aid ad2 h1 h2
      rw [ha] at h1
      exact ih aid ad2 h1 h2
    · intro aid ad2 h1 h2
      rw [ha] at h1
      rcases mget?_mset_cases _ _ _ _ _ h1 with ⟨_, rfl⟩ | hold
      · exact hvi h2
      · exact ih aid ad2 hold h2
  | rename st agentId name _ ih =>
    rcases (updateAgentName_shape st agentId name).2.2 with ha | ⟨ad0, hget0, ha⟩
    · intro aid ad2 h1 h2
      rw [ha] at h1
      exact ih aid ad2 h1 h2
    · intro aid ad2 h1 h2
      rw [ha] at h1
      rcases mget?_mset_cases _ _ _ _ _ h1 with ⟨_, rfl⟩ | hold
      · exact ih agentId ad0 hget0 h2
      · exact ih aid ad2 hold h2
  | remove st agentId _ ih =>
    rcases (removeAgent_shape st agentId).2 with ⟨ha, _⟩ | ⟨ad0, _, ha, _⟩
    · intro aid ad2 h1 h2
      rw [ha] at h1
      exact ih aid ad2 h1 h2
    · intro aid ad2 h1 h2
      rw [ha] at h1
      exact ih aid ad2 (mget?_mdel_some _ _ _ _ h1).2 h2
  | removeAll st userId _ ih =>
    rcases (removeUserAgents_shape st userId).2 with ⟨ha, _⟩ | ⟨lst, _, _, ha⟩
    · intro aid ad2 h1 h2
      rw [ha] at h1
      exact ih aid ad2 h1 h2
    · intro aid ad2 h1 h2
      rw [ha aid] at h1
      by_cases hk : aid ∈ lst
      · rw [if_pos hk] at h1
        exact absurd h1 (by simp)
      · rw [if_neg hk] at h1
        exact ih aid ad2 h1 h2

/-- C6: in every reachable registry state, a record whose conversational
runtime (`llmAgent`) is bound also has its blockchain runtime (`agent`)
bound: binding order is enforced on the record. -/
theorem conversationalRuntime_requires_blockchainRuntime (st : RegState) (h : RegReach st) :
    ∀ agentId ad, mget? st.agents agentId = some ad →
      ad.llmAgent.isSome = true → ad.agent.isSome = true :=
  bindOrder_reach st h

/-- Witness: in the concrete reachable state the record with a bound
conversational runtime indeed has a bound blockchain runtime. -/
theorem conversationalRuntime_requires_blockchainRuntime_witness :
    c6ad.agent.isSome = true :=
  conversationalRuntime_requires_blockchainRuntime c6State2
    (RegReach.process c6State1 (muuid 0) [] true true true (.ok [])
      (RegReach.create regInit "userA" "key1" "Tracker" 0 true RegReach.init))
    (muuid 0) c6ad (by decide) (by decide)

theorem regInv_create (st : RegState) (userId privateKey name : String) (now : Nat)
    (keyOk : Bool) (h : RegInv st) :
    RegInv (initializeUserAgent st userId privateKey name now keyOk).2 := by
  obtain ⟨hIC, hND, hIF⟩ := h
  rcases initializeUserAgent_shape st userId privateKey name now keyOk with
    ⟨ha, hu, hn⟩ | ⟨hune, ad, hadu, hadl, ha, hua, huan, hn⟩
  · refine ⟨?_, ?_, ?_⟩
    · intro uid aid
      rw [hu, ha]
      exact hIC uid aid
    · intro uid l hl
      rw [hu] at hl
      exact hND uid l hl
    · intro aid ad2 h2
      rw [ha] at h2
      exact Nat.le_trans (hIF aid ad2 h2) hn
  · have hnew_none : mget? st.agents (muuid st.nextUuid) = none := by
      cases hc : mget? st.agents (muuid st.nextUuid) with
      | none => rfl
      | some ad2 =>
        have := hIF _ _ hc
        rw [muuid_length] at this
        omega
    refine ⟨?_, ?_, ?_⟩
    · intro uid aid
      by_cases huid : uid = userId
      · subst huid
        by_cases haid : aid = muuid st.nextUuid
        · subst haid
          constructor
          · intro _
            exact ⟨ad, by rw [ha, mget?_mset_self], hadu⟩
          · intro _
            exact ⟨(mget? st.userAgents uid).getD [] ++ [muuid st.nextUuid],
              hua, List.mem_append_right _ (List.mem_singleton.mpr rfl)⟩
        · constructor
          · rintro ⟨l, hl, hmem⟩
            rw [hua] at hl
            obtain rfl : l = (mget? st.userAgents uid).getD [] ++ [muuid st.nextUuid] :=
              (Option.some.inj hl).symm
            rcases List.mem_append.mp hmem with hmem2 | hmem2
            · cases hc : mget? st.userAgents uid with
              | none =>
                rw [hc] at hmem2
                simp at hmem2
              | some l0 =>
                rw [hc] at hmem2
                obtain ⟨ad2, hc2, hu2⟩ := (hIC uid aid).mp ⟨l0, hc, by simpa using hmem2⟩
                exact ⟨ad2, by rw [ha, mget?_mset_ne _ _ _ _ haid]; exact hc2, hu2⟩
            · exact absurd (List.mem_singleton.mp hmem2) haid
          · rintro ⟨ad2, hc2, hu2⟩
            rw [ha, mget?_mset_ne _ _ _ _ haid] at hc2
            obtain ⟨l0, hc0, hm0⟩ := (hIC uid aid).mpr ⟨ad2, hc2, hu2⟩
            refine ⟨(mget? st.userAgents uid).getD [] ++ [muuid st.nextUuid], hua, ?_⟩
            rw [hc0]
            exact List.mem_append_left _ hm0
      · by_cases haid : aid = muuid st.nextUuid
        · subst haid
          constructor
          · rintro ⟨l, hl, hmem⟩
            rw [huan uid huid] at hl
            obtain ⟨ad2, hc2, _⟩ := (hIC uid _).mp ⟨l, hl, hmem⟩
            rw [hnew_none] at hc2
            exact absurd hc2 (by simp)
          · rintro ⟨ad2, hc2, hu2⟩
            rw [ha, mget?_mset_self] at hc2
            obtain rfl : ad2 = ad := (Option.some.inj hc2).symm
            rw [hadu] at hu2
            exact absurd hu2.symm huid
        · constructor
          · rintro ⟨l, hl, hmem⟩
            rw [huan uid huid] at hl
            obtain ⟨ad2, hc2, hu2⟩ := (hIC uid aid).mp ⟨l, hl, hmem⟩
            exact ⟨ad2, by rw [ha, mget?_mset_ne _ _ _ _ haid]; exact hc2, hu2⟩
          · rintro ⟨ad2, hc2, hu2⟩
            rw [ha, mget?_mset_ne _ _ _ _ haid] at hc2
            obtain ⟨l0, hc0, hm0⟩ := (hIC uid aid).mpr ⟨ad2, hc2, hu2⟩
            exact ⟨l0, by rw [huan uid huid]; exact hc0, hm0⟩
    · intro uid l hl
      by_cases huid : uid = userId
      · subst huid
        rw [hua] at hl
        obtain rfl : l = (mget? st.userAgents uid).getD [] ++ [muuid st.nextUuid] :=
          (Option.some.inj hl).symm
        simp
      · rw [huan uid huid] at hl
        exact hND uid l hl
    · intro aid ad2 h2
      rw [ha] at h2
      rw [hn]
      by_cases haid : aid = muuid st.nextUuid
      · subst haid
        rw [muuid_length]
      · rw [mget?_mset_ne _ _ _ _ haid] at h2
        have := hIF aid ad2 h2
        omega

theorem indexConsistent_mset_owner (st post : RegState) (agentId : String)
    (ad0 v : AgentData) (hIC : IndexConsistent st)
    (hget : mget? st.agents agentId = some ad0) (hvu : v.userId = ad0.userId)
    (hua : post.userAgents = st.userAgents)
    (ha : post.agents = mset st.agents agentId v) :
    IndexConsistent post := by
  intro uid aid
  rw [hua, ha]
  by_cases haid : aid = agentId
  · subst haid
    constructor
    · intro hl
      obtain ⟨ad2, hc2, hu2⟩ := (hIC uid aid).mp hl
      rw [hget] at hc2
      obtain rfl : ad2 = ad0 := (Option.some.inj hc2).symm
      exact ⟨v, mget?_mset_self _ _ _, by rw [hvu]; exact hu2⟩
    · rintro ⟨ad2, hc2, hu2⟩
      rw [mget?_mset_self] at hc2
      obtain rfl : v = ad2 := Option.some.inj hc2
      exact (hIC uid aid).mpr ⟨ad0, hget, by rw [← hvu]; exact hu2⟩
  · constructor
    · intro hl
      obtain ⟨ad2, hc2, hu2⟩ := (hIC uid aid).mp hl
      exact ⟨ad2, by rw [mget?_mset_ne _ _ _ _ haid]; exact hc2, hu2⟩
    · rintro ⟨ad2, hc2, hu2⟩
      rw [mget?_mset_ne _ _ _ _ haid] at hc2
      exact (hIC uid aid).mpr ⟨ad2, hc2, hu2⟩

theorem regInv_process (st : RegState) (agentId : String) (msgs : List ChatMsg)
    (keyOk apiKeyOk llmOk : Bool) (r : Except Unit (List ChatMsg)) (h : RegInv st) :
    RegInv (processAgentMessage st agentId msgs keyOk apiKeyOk llmOk r).2 := by
  obtain ⟨hIC, hND, hIF⟩ := h
  obtain ⟨hua, hn, hsh⟩ := processAgentMessage_shape st agentId msgs keyOk apiKeyOk llmOk r
  rcases hsh with ha | ⟨ad0, v, hget, hvu, _, ha⟩
  · exact ⟨fun uid aid => by rw [hua, ha]; exact hIC uid aid,
      fun uid l hl => hND uid l (by rwa [hua] at hl),
      fun aid ad2 h2 => by rw [hn]; exact hIF aid ad2 (by rwa [ha] at h2)⟩
  · refine ⟨indexConsistent_mset_owner st _ agentId ad0 v hIC hget hvu hua ha, ?_, ?_⟩
    · intro uid l hl
      rw [hua] at hl
      exact hND uid l hl
    · intro aid ad2 h2
      rw [ha] at h2
      rw [hn]
      rcases mget?_mset_cases _ _ _ _ _ h2 with ⟨rfl, rfl⟩ | hold
      · exact hIF _ ad0 hget
      · exact hIF aid ad2 hold

theorem regInv_rename (st : RegState) (agentId name : String) (h : RegInv st) :
    RegInv (updateAgentName st agentId name).2 := by
  obtain ⟨hIC, hND, hIF⟩ := h
  obtain ⟨hua, hn, hsh⟩ := updateAgentName_shape st agentId name
  rcases hsh with ha | ⟨ad0, hget, ha⟩
  · exact ⟨fun uid aid => by rw [hua, ha]; exact hIC uid aid,
      fun uid l hl => hND uid l (by rwa [hua] at hl),
      fun aid ad2 h2 => by rw [hn]; exact hIF aid ad2 (by rwa [ha] at h2)⟩
  · refine ⟨indexConsistent_mset_owner st _ agentId ad0 { ad0 with name := name }
      hIC hget rfl hua ha, ?_, ?_⟩
    · intro uid l hl
      rw [hua] at hl
      exact hND uid l hl
    · intro aid ad2 h2
      rw [ha] at h2
      rw [hn]
      rcases mget?_mset_cases _ _ _ _ _ h2 with ⟨rfl, rfl⟩ | hold
      · exact hIF _ ad0 hget
      · exact hIF aid ad2 hold

theorem regInv_remove (st : RegState) (agentId : String) (h : RegInv st) :
    RegInv (removeAgent st agentId).2 := by
  obtain ⟨hIC, hND, hIF⟩ := h
  obtain ⟨hn, hsh⟩ := removeAgent_shape st agentId
  rcases hsh with ⟨ha, hua⟩ | ⟨ad0, hget, ha, hua⟩
  · exact ⟨fun uid aid => by rw [hua, ha]; exact hIC uid aid,
      fun uid l hl => hND uid l (by rwa [hua] at hl),
      fun aid ad2 h2 => by rw [hn]; exact hIF aid ad2 (by rwa [ha] at h2)⟩
  · obtain ⟨l0, hl0, hm0⟩ := (hIC ad0.userId agentId).mpr ⟨ad0, hget, rfl⟩
    rw [hl0] at hua
    simp only [] at hua
    by_cases hlen : (l0.filter (fun i => i != agentId)).length = 0
    · rw [if_pos hlen] at hua
      refine ⟨?_, ?_, ?_⟩
      · intro uid aid
        rw [hua, ha]
        by_cases haid : aid = agentId
        · rw [haid, mget?_mdel_self]
          constructor
          · rintro ⟨l, hl, hmem⟩
            by_cases huid : uid = ad0.userId
            · rw [huid, mget?_mdel_self] at hl
              exact absurd hl (by simp)
            · rw [mget?_mdel_ne _ _ _ huid] at hl
              obtain ⟨ad2, hc2, hu2⟩ := (hIC uid agentId).mp ⟨l, hl, hmem⟩
              rw [hget] at hc2
              obtain rfl : ad2 = ad0 := (Option.some.inj hc2).symm
              exact absurd hu2.symm huid
          · rintro ⟨ad2, hc2, _⟩
            exact absurd hc2 (by simp)
        · rw [mget?_mdel_ne _ _ _ haid]
          by_cases huid : uid = ad0.userId
          · rw [huid, mget?_mdel_self]
            constructor
            · rintro ⟨l, hl, _⟩
              exact absurd hl (by simp)
            · rintro ⟨ad2, hc2, hu2⟩
              obtain ⟨l, hl, hmem⟩ := (hIC ad0.userId aid).mpr
                ⟨ad2, hc2, by rw [hu2]⟩
              rw [hl0] at hl
              have hleq : l = l0 := (Option.some.inj hl).symm
              have hfmem : aid ∈ List.filter (fun i => i != agentId) l0 :=
                List.mem_filter.mpr ⟨hleq ▸ hmem, by simpa using haid⟩
              rw [List.length_eq_zero] at hlen
              rw [hlen] at hfmem
              simp at hfmem
          · rw [mget?_mdel_ne _ _ _ huid]
            exact hIC uid aid
      · intro uid l hl
        rw [hua] at hl
        by_cases huid : uid = ad0.userId
        · rw [huid, mget?_mdel_self] at hl
          exact absurd hl (by simp)
        · rw [mget?_mdel_ne _ _ _ huid] at hl
          exact hND uid l hl
      · intro aid ad2 h2
        rw [ha] at h2
        rw [hn]
        exact hIF aid ad2 (mget?_mdel_some _ _ _ _ h2).2
    · rw [if_neg hlen] at hua
      refine ⟨?_, ?_, ?_⟩
      · intro uid aid
        rw [hua, ha]
        by_cases haid : aid = agentId
        · rw [haid, mget?_mdel_self]
          constructor
          · rintro ⟨l, hl, hmem⟩
            by_cases huid : uid = ad0.userId
            · rw [huid, mget?_mset_self] at hl
              obtain rfl : l = l0.filter (fun i => i != agentId) :=
                (Option.some.inj hl).symm
              have := (List.mem_filter.mp hmem).2
              simp at this
            · rw [mget?_mset_ne _ _ _ _ huid] at hl
              obtain ⟨ad2, hc2, hu2⟩ := (hIC uid agentId).mp ⟨l, hl, hmem⟩
              rw [hget] at hc2
              obtain rfl : ad2 = ad0 := (Option.some.inj hc2).symm
              exact absurd hu2.symm huid
          · rintro ⟨ad2, hc2, _⟩
            exact absurd hc2 (by simp)
        · rw [mget?_mdel_ne _ _ _ haid]
          by_cases huid : uid = ad0.userId
          · rw [huid, mget?_mset_self]
            constructor
            · rintro ⟨l, hl, hmem⟩
              obtain rfl : l = l0.filter (fun i => i != agentId) :=
                (Option.some.inj hl).symm
              have := (hIC ad0.userId aid).mp ⟨l0, hl0, (List.mem_filter.mp hmem).1⟩
              obtain ⟨ad2, hc2, hu2⟩ := this
              exact ⟨ad2, hc2, by rw [hu2]⟩
            · rintro ⟨ad2, hc2, hu2⟩
              obtain ⟨l, hl, hmem⟩ := (hIC ad0.userId aid).mpr
                ⟨ad2, hc2, by rw [hu2]⟩
              rw [hl0] at hl
              have hleq : l = l0 := (Option.some.inj hl).symm
              exact ⟨List.filter (fun i => i != agentId) l0, rfl,
                List.mem_filter.mpr ⟨hleq ▸ hmem, by simpa using haid⟩⟩
          · rw [mget?_mset_ne _ _ _ _ huid]
            exact hIC uid aid
      · intro uid l hl
        rw [hua] at hl
        by_cases huid : uid = ad0.userId
        · rw [huid, mget?_mset_self] at hl
          obtain rfl : l = l0.filter (fun i => i != agentId) :=
            (Option.some.inj hl).symm
          intro hc
          rw [hc] at hlen
          simp at hlen
        · rw [mget?_mset_ne _ _ _ _ huid] at hl
          exact hND uid l hl
      · intro aid ad2 h2
        rw [ha] at h2
        rw [hn]
        exact hIF aid ad2 (mget?_mdel_some _ _ _ _ h2).2

theorem regInv_removeAll (st : RegState) (userId : String) (h : RegInv st) :
    RegInv (removeUserAgents st userId).2 := by
  obtain ⟨hIC, hND, hIF⟩ := h
  obtain ⟨hn, hsh⟩ := removeUserAgents_shape st userId
  rcases hsh with ⟨ha, hua⟩ | ⟨lst, hl0, hua, ha⟩
  · exact ⟨fun uid aid => by rw [hua, ha]; exact hIC uid aid,
      fun uid l hl => hND uid l (by rwa [hua] at hl),
      fun aid ad2 h2 => by rw [hn]; exact hIF aid ad2 (by rwa [ha] at h2)⟩
  · refine ⟨?_, ?_, ?_⟩
    · intro uid aid
      rw [hua]
      constructor
      · rintro ⟨l, hl, hmem⟩
        by_cases huid : uid = userId
        · rw [huid, mget?_mdel_self] at hl
          exact absurd hl (by simp)
        · rw [mget?_mdel_ne _ _ _ huid] at hl
          obtain ⟨ad2, hc2, hu2⟩ := (hIC uid aid).mp ⟨l, hl, hmem⟩
          refine ⟨ad2, ?_, hu2⟩
          rw [ha aid]
          by_cases hk : aid ∈ lst
          · obtain ⟨ad3, hc3, hu3⟩ := (hIC userId aid).mp ⟨lst, hl0, hk⟩
            rw [hc3] at hc2
            obtain rfl : ad2 = ad3 := Option.some.inj hc2.symm
            rw [hu3] at hu2
            exact absurd hu2.symm huid
          · rw [if_neg hk]
            exact hc2
      · rintro ⟨ad2, hc2, hu2⟩
        rw [ha aid] at hc2
        by_cases hk : aid ∈ lst
        · rw [if_pos hk] at hc2
          exact absurd hc2 (by simp)
        · rw [if_neg hk] at hc2
          obtain ⟨l, hl, hmem⟩ := (hIC uid aid).mpr ⟨ad2, hc2, hu2⟩
          by_cases huid : uid = userId
          · rw [huid, hl0] at hl
            have hleq : l = lst := (Option.some.inj hl).symm
            exact absurd (hleq ▸ hmem) hk
          · exact ⟨l, by rw [mget?_mdel_ne _ _ _ huid]; exact hl, hmem⟩
    · intro uid l hl
      rw [hua] at hl
      by_cases huid : uid = userId
      · rw [huid, mget?_mdel_self] at hl
        exact absurd hl (by simp)
      · rw [mget?_mdel_ne _ _ _ huid] at hl
        exact hND uid l hl
    · intro aid ad2 h2
      rw [ha aid] at h2
      rw [hn]
      by_cases hk : aid ∈ lst
      · rw [if_pos hk] at h2
        exact absurd h2 (by simp)
      · rw [if_neg hk] at h2
        exact hIF aid ad2 h2

/-- The combined registry invariant holds in every reachable state. -/
theorem regInv_reach (st : RegState) (h : RegReach st) : RegInv st := by
  induction h with
  | init =>
    refine ⟨?_, ?_, ?_⟩
    · intro uid aid
      constructor
      · rintro ⟨l, hl, _⟩
        simp [regInit, mget?] at hl
      · rintro ⟨ad, hc, _⟩
        simp [regInit, mget?] at hc
    · intro uid l hl
      simp [regInit, mget?] at hl
    · intro aid ad hc
      simp [regInit, mget?] at hc
  | create st userId privateKey name now keyOk _ ih =>
    exact regInv_create st userId privateKey name now keyOk ih
  | process st agentId msgs keyOk apiKeyOk llmOk r _ ih =>
    exact regInv_process st agentId msgs keyOk apiKeyOk llmOk r ih
  | rename st agentId name _ ih => exact regInv_rename st agentId name ih
  | remove st agentId _ ih => exact regInv_remove st agentId ih
  | removeAll st userId _ ih => exact regInv_removeAll st userId ih

/-- C7: in every state reachable by the registry operations, the owner-index
and the primary agent map agree: an agentId is listed under an owner iff its
record exists with that owner; the same holds through the getUserAgents read;
and an owner-index entry that became empty is deleted, never left dangling. -/
theorem ownerIndex_consistent (st : RegState) (h : RegReach st) :
    (∀ userId agentId,
      (∃ l, mget? st.userAgents userId = some l ∧ agentId ∈ l) ↔
      (∃ ad, mget? st.agents agentId = some ad ∧ ad.userId = userId)) ∧
    (∀ userId l, mget? st.userAgents userId = some l → l ≠ []) ∧
    (∀ userId, userId ≠ "" → ∀ agentId,
      ((∃ summaries, getUserAgents st userId = .ok summaries ∧
         agentId ∈ summaries.map UserAgentSummary.agentId) ↔
       (∃ ad, mget? st.agents agentId = some ad ∧ ad.userId = userId))) := by
  obtain ⟨hIC, hND, hIF⟩ := regInv_reach st h
  refine ⟨hIC, hND, ?_⟩
  intro userId hne agentId
  have hgua : getUserAgents st userId =
      (match mget? st.userAgents userId with
       | none => .ok []
       | some agentIds => .ok (agentIds.filterMap fun aid =>
          match mget? st.agents aid with
          | none => none
          | some ad => some { agentId := aid, name := ad.name,
                              initialized := ad.agent.isSome,
                              llmInitialized := ad.llmAgent.isSome,
                              createdAt := ad.createdAt })) := by
    unfold getUserAgents
    rw [if_neg hne]
  cases hl : mget? st.userAgents userId with
  | none =>
    constructor
    · rintro ⟨summaries, hok, hmem⟩
      rw [hgua, hl] at hok
      have : ([] : List UserAgentSummary) = summaries := Except.ok.inj hok
      rw [← this] at hmem
      simp at hmem
    · rintro ⟨ad, hc, hu⟩
      obtain ⟨l2, hl2, _⟩ := (hIC userId agentId).mpr ⟨ad, hc, hu⟩
      rw [hl] at hl2
      exact absurd hl2 (by simp)
  | some lst =>
    constructor
    · rintro ⟨summaries, hok, hmem⟩
      rw [hgua, hl] at hok
      have hs : _ = summaries := Except.ok.inj hok
      rw [← hs] at hmem
      obtain ⟨s, hsmem, hseq⟩ := List.mem_map.mp hmem
      obtain ⟨a, hamem, hfa⟩ := List.mem_filterMap.mp hsmem
      cases hc : mget? st.agents a with
      | none =>
        rw [hc] at hfa
        simp at hfa
      | some ad =>
        rw [hc] at hfa
        have hsa : s.agentId = a := by
          have h2 := Option.some.inj hfa
          rw [← h2]
        have haeq : a = agentId := by rw [← hsa, hseq]
        rw [haeq] at hc hamem
        obtain ⟨ad2, hc2, hu2⟩ := (hIC userId agentId).mp ⟨lst, hl, hamem⟩
        rw [hc] at hc2
        have hEq : ad = ad2 := Option.some.inj hc2
        exact ⟨ad, hc, by rw [hEq]; exact hu2⟩
    · rintro ⟨ad, hc, hu⟩
      obtain ⟨l2, hl2, hmem2⟩ := (hIC userId agentId).mpr ⟨ad, hc, hu⟩
      rw [hl] at hl2
      have hleq : lst = l2 := Option.some.inj hl2
      refine ⟨_, by rw [hgua, hl], ?_⟩
      apply List.mem_map.mpr
      refine ⟨{ agentId := agentId, name := ad.name, initialized := ad.agent.isSome,
                llmInitialized := ad.llmAgent.isSome, createdAt := ad.createdAt }, ?_, rfl⟩
      apply List.mem_filterMap.mpr
      refine ⟨agentId, by rw [hleq]; exact hmem2, by rw [hc]⟩

theorem aptosProcessAgentMessage_ok (st st1 : RegState) (msgs : List ChatMsg)
    (apiKeyOk llmOk : Bool) (r : Except Unit (List ChatMsg)) (reply : List ChatMsg)
    (h : aptosProcessAgentMessage st msgs apiKeyOk llmOk r = (.ok reply, st1)) :
    st1.svcLlm ≠ none ∧ st1.agents = st.agents := by
  unfold aptosProcessAgentMessage at h
  by_cases hsvc : st.svcLlm = none
  · rw [if_pos hsvc] at h
    cases hini : aptosInitializeLLMAgent st apiKeyOk llmOk with
    | error e =>
      rw [hini] at h
      simp at h
    | ok st2 =>
      rw [hini] at h
      obtain ⟨g1, g2, g3, g4, g5⟩ := aptosInitializeLLMAgent_ok st st2 apiKeyOk llmOk hini
      cases r with
      | error u => simp at h
      | ok msgs2 =>
        simp only [Prod.mk.injEq, Except.ok.injEq] at h
        obtain ⟨_, rfl⟩ := h
        exact ⟨by rw [g4]; simp, g1⟩
  · rw [if_neg hsvc] at h
    cases r with
    | error u => simp at h
    | ok msgs2 =>
      simp only [Prod.mk.injEq, Except.ok.injEq] at h
      obtain ⟨_, rfl⟩ := h
      exact ⟨hsvc, rfl⟩

theorem processAgentMessage_ok_bound (st st1 : RegState) (agentId : String)
    (msgs : List ChatMsg) (keyOk apiKeyOk llmOk : Bool) (r : Except Unit (List ChatMsg))
    (reply : List ChatMsg)
    (h : processAgentMessage st agentId msgs keyOk apiKeyOk llmOk r = (.ok reply, st1)) :
    agentId ≠ "" ∧ st1.svcLlm ≠ none ∧
    ∃ ad, mget? st1.agents agentId = some ad ∧ ad.llmAgent ≠ none := by
  unfold processAgentMessage at h
  by_cases hne : agentId = ""
  · rw [if_pos hne] at h
    simp at h
  · rw [if_neg hne] at h
    refine ⟨hne, ?_⟩
    cases hget : mget? st.agents agentId with
    | none =>
      rw [hget] at h
      simp at h
    | some agentData =>
      rw [hget] at h
      simp only [] at h
      by_cases hllm : agentData.llmAgent = none
      · rw [if_pos hllm] at h
        cases hens : ensureAgentBound st agentId agentData keyOk with
        | error es =>
          rw [hens] at h
          simp at h
        | ok p =>
          obtain ⟨ad1, stE⟩ := p
          rw [hens] at h
          simp only [] at h
          cases hini : aptosInitializeLLMAgent stE apiKeyOk llmOk with
          | error e =>
            rw [hini] at h
            simp at h
          | ok st2 =>
            rw [hini] at h
            simp only [] at h
            obtain ⟨g1, g2, g3, g4, g5⟩ :=
              aptosInitializeLLMAgent_ok stE st2 apiKeyOk llmOk hini
            obtain ⟨q1, q2⟩ := aptosProcessAgentMessage_ok _ st1 msgs apiKeyOk llmOk r
              reply h
            refine ⟨q1, { ad1 with llmAgent := st2.svcLlm }, ?_, by rw [g4]; simp⟩
            rw [q2]
            simp only []
            exact mget?_mset_self _ _ _
      · rw [if_neg hllm] at h
        obtain ⟨q1, q2⟩ := aptosProcessAgentMessage_ok st st1 msgs apiKeyOk llmOk r reply h
        exact ⟨q1, agentData, by rw [q2]; exact hget, hllm⟩

theorem processAgentMessage_cached (st : RegState) (agentId : String)
    (msgs : List ChatMsg) (keyOk apiKeyOk llmOk : Bool) (r : Except Unit (List ChatMsg))
    (ad : AgentData) (hne : agentId ≠ "")
    (hget : mget? st.agents agentId = some ad) (hllm : ad.llmAgent ≠ none)
    (hsvc : st.svcLlm ≠ none) :
    (processAgentMessage st agentId msgs keyOk apiKeyOk llmOk r).2 = st := by
  unfold processAgentMessage
  rw [if_neg hne, hget]
  simp only []
  rw [if_neg hllm]
  exact aptosProcessAgentMessage_no_bind st msgs apiKeyOk llmOk r hsvc

/-- C5: binding is idempotent per record. After a first successful message
turn on an agent (which bound and cached its runtime handles), any further
call on the same record leaves the whole registry state unchanged: the record
keeps the identical cached handles and the construction counters do not move,
so no second construction call reaches the external collaborators. -/
theorem processAgentMessage_idempotent (st st1 : RegState) (agentId : String)
    (messages : List ChatMsg) (keyOk apiKeyOk llmOk : Bool)
    (invokeRes : Except Unit (List ChatMsg)) (reply : List ChatMsg)
    (hfirst : processAgentMessage st agentId messages keyOk apiKeyOk llmOk invokeRes =
      (.ok reply, st1)) :
    ∀ (messages2 : List ChatMsg) (keyOk2 apiKeyOk2 llmOk2 : Bool)
      (invokeRes2 : Except Unit (List ChatMsg)),
      (processAgentMessage st1 agentId messages2 keyOk2 apiKeyOk2 llmOk2 invokeRes2).2 =
        st1 ∧
      mget? (processAgentMessage st1 agentId messages2 keyOk2 apiKeyOk2 llmOk2
        invokeRes2).2.agents agentId = mget? st1.agents agentId ∧
      (processAgentMessage st1 agentId messages2 keyOk2 apiKeyOk2 llmOk2
        invokeRes2).2.llmCtors = st1.llmCtors ∧
      (processAgentMessage st1 agentId messages2 keyOk2 apiKeyOk2 llmOk2
        invokeRes2).2.agentCtors = st1.agentCtors := by
  obtain ⟨hne, hsvc, ad, hget, hllm⟩ :=
    processAgentMessage_ok_bound st st1 agentId messages keyOk apiKeyOk llmOk invokeRes
      reply hfirst
  intro messages2 keyOk2 apiKeyOk2 llmOk2 invokeRes2
  have hcached := processAgentMessage_cached st1 agentId messages2 keyOk2 apiKeyOk2 llmOk2
    invokeRes2 ad hne hget hllm hsvc
  exact ⟨hcached, by rw [hcached], by rw [hcached], by rw [hcached]⟩

/-- Witness: a concrete second call after the first successful turn changes
nothing and constructs nothing. -/
theorem processAgentMessage_idempotent_witness :
    (processAgentMessage c6State2 (muuid 0) [] true true true (.ok [])).2 = c6State2 ∧
    mget? (processAgentMessage c6State2 (muuid 0) [] true true true
      (.ok [])).2.agents (muuid 0) = mget? c6State2.agents (muuid 0) ∧
    (processAgentMessage c6State2 (muuid 0) [] true true true (.ok [])).2.llmCtors =
      c6State2.llmCtors ∧
    (processAgentMessage c6State2 (muuid 0) [] true true true (.ok [])).2.agentCtors =
      c6State2.agentCtors :=
  processAgentMessage_idempotent c6State1 c6State2 (muuid 0) [] true true true (.ok []) []
    rfl [] true true true (.ok [])

theorem mget?_map_entry {α β : Type} (f : String → α → β) (m : List (String × α))
    (k : String) :
    mget? (m.map fun e => (e.1, f e.1 e.2)) k = (mget? m k).map (f k) := by
  induction m with
  | nil => simp [mget?]
  | cons e rest ih =>
    by_cases he : e.1 = k
    · subst he
      simp [mget?, ih]
    · simp [mget?, he, ih]

theorem filterMap_ext {α β : Type} (f g : α → Option β) (l : List α)
    (h : ∀ a, f a = g a) : l.filterMap f = l.filterMap g := by
  induction l with
  | nil => rfl
  | cons a rest ih => simp [List.filterMap_cons, h a, ih]

theorem map_ext_fun {α β : Type} (f g : α → β) (l : List α)
    (h : ∀ a, f a = g a) : l.map f = l.map g := by
  induction l with
  | nil => rfl
  | cons a rest ih => simp [List.map_cons, h a, ih]

/-- C9: no read projection exposes the secret material. The summary and
status types carry no secret field, and every read operation of the registry
returns the same value when every stored secret is replaced by any other
value: the reads do not depend on the secrets. -/
theorem reads_independent_of_secrets (st : RegState) (σ : String → String) :
    (∀ agentId, getAgent (overwriteSecrets st σ) agentId = getAgent st agentId) ∧
    (∀ userId, getUserAgents (overwriteSecrets st σ) userId = getUserAgents st userId) ∧
    getAllAgents (overwriteSecrets st σ) = getAllAgents st ∧
    (∀ agentId, getAgentStatus (overwriteSecrets st σ) agentId = getAgentStatus st agentId)
    := by
  have hm : ∀ k, mget? (overwriteSecrets st σ).agents k =
      (mget? st.agents k).map fun ad => { ad with privateKey := σ k } := by
    intro k
    unfold overwriteSecrets
    simp only []
    exact mget?_map_entry (fun k2 ad => { ad with privateKey := σ k2 }) st.agents k
  refine ⟨?_, ?_, ?_, ?_⟩
  · intro agentId
    unfold getAgent
    by_cases hne : agentId = ""
    · simp [hne]
    · rw [if_neg hne, if_neg hne, hm]
      cases mget? st.agents agentId <;> rfl
  · intro userId
    unfold getUserAgents
    by_cases hne : userId = ""
    · simp [hne]
    · rw [if_neg hne, if_neg hne]
      have hua : (overwriteSecrets st σ).userAgents = st.userAgents := rfl
      rw [hua]
      cases hl : mget? st.userAgents userId with
      | none => rfl
      | some lst =>
        simp only []
        congr 1
        apply filterMap_ext
        intro a
        rw [hm a]
        cases mget? st.agents a <;> rfl
  · unfold getAllAgents overwriteSecrets
    simp only []
    rw [List.map_map]
    apply map_ext_fun
    intro e
    rfl
  · intro agentId
    unfold getAgentStatus
    by_cases hne : agentId = ""
    · simp [hne]
    · rw [if_neg hne, if_neg hne, hm]
      cases mget? st.agents agentId <;> rfl

/-- C10: querying the status of an unknown agent id is not an error: the
service answers a plain status object with initialized = false and the
message Agent not found, the controller wraps it in a 200 success response,
and the registry state is returned unchanged. -/
theorem getAgentStatus_unknown_ok (st : RegState) (agentId : String)
    (h1 : agentId ≠ "") (h2 : sanitizeInput agentId ≠ "")
    (h3 : mget? st.agents (sanitizeInput agentId) = none) :
    getAgentStatusHandler st agentId =
      ({ status := 200, success := true,
         stat := some { agentId := none, userId := none, name := none,
                        initialized := false, llmInitialized := none, createdAt := none,
                        message := some "Agent not found" } }, st) := by
  unfold getAgentStatusHandler getAgentStatus
  rw [if_neg h1, if_neg h2, h3]

/-- Witness: status of an unknown id on the fresh registry. -/
theorem getAgentStatus_unknown_ok_witness :
    getAgentStatusHandler regInit "ghost" =
      ({ status := 200, success := true,
         stat := some { agentId := none, userId := none, name := none,
                        initialized := false, llmInitialized := none, createdAt := none,
                        message := some "Agent not found" } }, regInit) :=
  getAgentStatus_unknown_ok regInit "ghost" (by decide) (by decide) (by decide)

/-- Witness: in a concrete reachable registry state the owner-index entry is
nonempty, by the no-dangling half of the consistency theorem. -/
theorem ownerIndex_consistent_witness : ([muuid 0] : List String) ≠ [] :=
  (ownerIndex_consistent c6State1
    (RegReach.create regInit "userA" "key1" "Tracker" 0 true RegReach.init)).2.1
    "userA" [muuid 0] (by decide)

/-- C3 (evaluation at the failing behaviour): removing all agents of an owner
returns the owned count, empties the owner listing and deletes the
owner-index entry — but the conversation store is returned completely
unchanged, so the ConversationEntry of each removed agent survives instead of
being cascade-deleted. -/
theorem removeUserAgents_no_cascade (st : SysState) (userId : String) (l : List String)
    (h1 : userId ≠ "") (h2 : sanitizeInput userId ≠ "")
    (hidx : mget? st.reg.userAgents (sanitizeInput userId) = some l)
    (hnd : l.Nodup) (hall : ∀ id2 ∈ l, mhas st.reg.agents id2 = true) :
    (removeUserAgentsHandler st userId).1 =
        { status := 200, success := true, count := some l.length } ∧
    getUserAgents (removeUserAgentsHandler st userId).2.reg (sanitizeInput userId) =
        .ok [] ∧
    mget? (removeUserAgentsHandler st userId).2.reg.userAgents (sanitizeInput userId) =
        none ∧
    (removeUserAgentsHandler st userId).2.db = st.db := by
  have hkey : removeUserAgents st.reg (sanitizeInput userId) =
      (.ok l.length,
       { st.reg with
           agents := (l.foldl (fun acc agentId =>
             if mhas acc.1 agentId then (mdel acc.1 agentId, acc.2 + 1) else acc)
             (st.reg.agents, 0)).1,
           userAgents := mdel st.reg.userAgents (sanitizeInput userId) }) := by
    unfold removeUserAgents
    rw [if_neg h2, hidx]
    simp only []
    rw [foldl_removeStep_count l st.reg.agents 0 hnd hall]
    simp only [Nat.zero_add]
  have hhandler : removeUserAgentsHandler st userId =
      ({ status := 200, success := true, count := some l.length },
       { st with reg :=
          { st.reg with
              agents := (l.foldl (fun acc agentId =>
                if mhas acc.1 agentId then (mdel acc.1 agentId, acc.2 + 1) else acc)
                (st.reg.agents, 0)).1,
              userAgents := mdel st.reg.userAgents (sanitizeInput userId) } }) := by
    unfold removeUserAgentsHandler
    rw [if_neg h1, hkey]
  refine ⟨by rw [hhandler], ?_, ?_, by rw [hhandler]⟩
  · rw [hhandler]
    unfold getUserAgents
    rw [if_neg h2]
    simp only []
    rw [mget?_mdel_self]
  · rw [hhandler]
    simp only []
    exact mget?_mdel_self _ _

/-- Witness: at the failing input the call returns count 3, the owner listing
and index entry are gone, and the conversation entry of the removed agent is
still stored. -/
theorem removeUserAgents_no_cascade_witness :
    (removeUserAgentsHandler c3Sys "userA").1 =
        { status := 200, success := true, count := some 3 } ∧
    getUserAgents (removeUserAgentsHandler c3Sys "userA").2.reg (sanitizeInput "userA") =
        .ok [] ∧
    mget? (removeUserAgentsHandler c3Sys "userA").2.reg.userAgents (sanitizeInput "userA") =
        none ∧
    mget? (removeUserAgentsHandler c3Sys "userA").2.db.conversations 0 = some c3Conv := by
  obtain ⟨w1, w2, w3, w4⟩ := removeUserAgents_no_cascade c3Sys "userA" ["a1", "a2", "a3"]
    (by decide) (by decide) (by decide) (by decide) (by decide)
  refine ⟨by simpa using w1, w2, w3, ?_⟩
  rw [w4]
  decide
